import Mathlib

/-!
# Verification of the AppBiblioteca data-integrity core

Shallow embedding of the transactional data layer (`db.js`) and the
backup validation/import pipeline (`script.js`) of the library
management application, together with theorems settling the frozen
claims about the specification.

Modelling conventions:
* IndexedDB object stores are modelled as lists of records kept in
  ascending key order (IndexedDB `getAll` returns records in ascending
  key order); `put` is an insert-or-replace on that list which fails
  when a unique secondary index (isbn / matricula) would collide with a
  record having a different key, mirroring IndexedDB index constraint
  faults.
* A transaction abort restores the pre-transaction state; every
  operation therefore returns the committed error/state pair, the state
  component being the original state on every abort path.
* JavaScript values appearing in backups are modelled by the `Json`
  type; `JSON.stringify` output is modelled as a list of characters
  (`jChars`), with JS `string.charCodeAt` modelled by `Char.toNat`
  (they agree on the Basic Multilingual Plane, which covers all
  payloads considered here).
-/

namespace Biblioteca

/-! ## JSON values

JavaScript objects parsed from / serialized to backup files.  Arrays and
objects carry their own list types so that all functions below are
structurally recursive and kernel-evaluable. -/

mutual

inductive Json where
  | null : Json
  | bool : Bool → Json
  | num : Int → Json
  | str : String → Json
  | arr : JsonArr → Json
  | obj : JsonObj → Json
  deriving DecidableEq

inductive JsonArr where
  | nil : JsonArr
  | cons : Json → JsonArr → JsonArr
  deriving DecidableEq

inductive JsonObj where
  | nil : JsonObj
  | cons : String → Json → JsonObj → JsonObj
  deriving DecidableEq

end

namespace JsonArr

/-- Length of a JSON array (JS `array.length`). -/
def length : JsonArr → Nat
  | .nil => 0
  | .cons _ t => t.length + 1

/-- The underlying list of elements. -/
def toList : JsonArr → List Json
  | .nil => []
  | .cons h t => h :: t.toList

/-- Build a JSON array from a list of elements. -/
def ofList : List Json → JsonArr
  | [] => .nil
  | h :: t => .cons h (ofList t)

end JsonArr

namespace JsonObj

/-- JS property lookup `o[k]`: the first field named `k`, if any
(objects produced by `JSON.parse` have no duplicate keys). -/
def lookup (k : String) : JsonObj → Option Json
  | .nil => none
  | .cons k' v t => if k' = k then some v else t.lookup k

/-- JS `delete o[k]`: removes the field named `k`, keeping the order of
the remaining fields. -/
def removeKey (k : String) : JsonObj → JsonObj
  | .nil => .nil
  | .cons k' v t => if k' = k then t.removeKey k else .cons k' v (t.removeKey k)

/-- The underlying association list of fields. -/
def toList : JsonObj → List (String × Json)
  | .nil => []
  | .cons k v t => (k, v) :: t.toList

/-- Build a JSON object from an association list of fields. -/
def ofList : List (String × Json) → JsonObj
  | [] => .nil
  | (k, v) :: t => .cons k v (ofList t)

end JsonObj

/-- JS truthiness of a JSON value (`!v` in `validarBackup`'s root
check negates this). -/
def jsTruthy : Json → Bool
  | .null => false
  | .bool b => b
  | .num n => n ≠ 0
  | .str s => s ≠ ""
  | .arr _ => true
  | .obj _ => true

/-! ## Serialization (`JSON.stringify`, no indentation) -/

/-- The hexadecimal digit characters used by JS `Number.toString(16)`
(lowercase). -/
def digitChar16 (d : Nat) : Char :=
  if d < 10 then Char.ofNat (48 + d) else Char.ofNat (87 + d)

/-- Escaping of a single character inside a JSON string literal, as
performed by `JSON.stringify`. -/
def escChar (c : Char) : List Char :=
  if c = '"' then ['\\', '"']
  else if c = '\\' then ['\\', '\\']
  else if c = Char.ofNat 8 then ['\\', 'b']
  else if c = Char.ofNat 9 then ['\\', 't']
  else if c = Char.ofNat 10 then ['\\', 'n']
  else if c = Char.ofNat 12 then ['\\', 'f']
  else if c = Char.ofNat 13 then ['\\', 'r']
  else if c.toNat < 32 then
    ['\\', 'u', '0', '0', digitChar16 (c.toNat / 16), digitChar16 (c.toNat % 16)]
  else [c]

/-- Body of a JSON string literal: every character escaped. -/
def escStr (s : String) : List Char :=
  s.data.flatMap escChar

/-- A JSON string literal: `"..."` with the body escaped. -/
def strLit (s : String) : List Char :=
  '"' :: escStr s ++ ['"']

mutual

/-- `JSON.stringify(v)` (without indentation), as a character list. -/
def jChars : Json → List Char
  | .null => "null".data
  | .bool true => "true".data
  | .bool false => "false".data
  | .num n => (toString n).data
  | .str s => strLit s
  | .arr a => '[' :: jCharsArr a ++ [']']
  | .obj o => '{' :: jCharsObj o ++ ['}']
termination_by structural j => j

/-- Comma-separated serializations of the elements of an array. -/
def jCharsArr : JsonArr → List Char
  | .nil => []
  | .cons h t => jChars h ++ jCharsArrRest t
termination_by structural a => a

/-- Serializations of the remaining elements of an array, each preceded
by a comma. -/
def jCharsArrRest : JsonArr → List Char
  | .nil => []
  | .cons h t => ',' :: jChars h ++ jCharsArrRest t
termination_by structural a => a

/-- Comma-separated `"key":value` serializations of an object's
fields. -/
def jCharsObj : JsonObj → List Char
  | .nil => []
  | .cons k v t => strLit k ++ ':' :: jChars v ++ jCharsObjRest t
termination_by structural o => o

/-- Serializations of the remaining fields of an object, each preceded
by a comma. -/
def jCharsObjRest : JsonObj → List Char
  | .nil => []
  | .cons k v t => ',' :: strLit k ++ ':' :: jChars v ++ jCharsObjRest t
termination_by structural o => o

end

/-! ## Checksum (`gerarChecksumSimples`) -/

/-- Whether a character is matched by the JS regular expression `/\s/`
(whitespace class). -/
def isJsWs (c : Char) : Bool :=
  c ∈ [' ', '\t', '\n', '\r', Char.ofNat 0x0b, Char.ofNat 0x0c,
       Char.ofNat 0xa0, Char.ofNat 0x1680,
       Char.ofNat 0x2000, Char.ofNat 0x2001, Char.ofNat 0x2002, Char.ofNat 0x2003,
       Char.ofNat 0x2004, Char.ofNat 0x2005, Char.ofNat 0x2006, Char.ofNat 0x2007,
       Char.ofNat 0x2008, Char.ofNat 0x2009, Char.ofNat 0x200a,
       Char.ofNat 0x2028, Char.ofNat 0x2029, Char.ofNat 0x202f,
       Char.ofNat 0x205f, Char.ofNat 0x3000, Char.ofNat 0xfeff]

/-- `str.replace(/\s/g, '')`: removes every whitespace character. -/
def stripWs (l : List Char) : List Char :=
  l.filter (fun c => !isJsWs c)

/-- Sum of the character codes of a character list (the accumulator
loop of `gerarChecksumSimples`). -/
def charSum (l : List Char) : Nat :=
  (l.map Char.toNat).sum

/-- Hexadecimal digit list of `n`, most significant digit first, with
structural fuel so that the definition evaluates in the kernel. -/
def hexAux : Nat → Nat → List Char
  | 0, _ => []
  | f + 1, n =>
    if n < 16 then [digitChar16 n]
    else hexAux f (n / 16) ++ [digitChar16 (n % 16)]

/-- JS `n.toString(16)` for a natural number. -/
def hexString (n : Nat) : String :=
  ⟨hexAux (n + 1) n⟩

/-- `gerarChecksumSimples(objeto)` (script.js): serializes the object,
strips whitespace, sums the character codes and renders the sum in
hexadecimal. -/
def gerarChecksumSimples (j : Json) : String :=
  hexString (charSum (stripWs (jChars j)))

/-! ## Records

The three record kinds persisted in the `livros`, `alunos` and
`emprestimos` object stores, as created by the controllers in
script.js. -/

/-- A book record (`livros` store). -/
structure Livro where
  id : Nat
  titulo : String
  autor : String
  isbn : String
  quantidadeTotal : Int
  quantidadeDisponivel : Int
  deriving DecidableEq

/-- A student record (`alunos` store). -/
structure Aluno where
  id : Nat
  nome : String
  matricula : String
  turma : String
  deriving DecidableEq

/-- A loan record (`emprestimos` store). -/
structure Emprestimo where
  id : Nat
  idLivro : Nat
  idAluno : Nat
  dataEmprestimo : String
  dataPrevistaDevolucao : String
  dataDevolucaoReal : Option String
  status : String
  deriving DecidableEq

/-- JSON form of a book record, with the field order used when the
record object is built in `handleSalvarLivro` and serialized by
`JSON.stringify` (the `id` key, assigned by the store, comes last for
records created without one; exported records read back from IndexedDB
list `id` first as IndexedDB stores the injected key in place; we fix
the order `id` first, which is the order of exported records). -/
def Livro.toJson (l : Livro) : Json :=
  .obj (.cons "id" (.num l.id)
    (.cons "titulo" (.str l.titulo)
      (.cons "autor" (.str l.autor)
        (.cons "isbn" (.str l.isbn)
          (.cons "quantidadeTotal" (.num l.quantidadeTotal)
            (.cons "quantidadeDisponivel" (.num l.quantidadeDisponivel) .nil))))))

/-- JSON form of a student record. -/
def Aluno.toJson (a : Aluno) : Json :=
  .obj (.cons "id" (.num a.id)
    (.cons "nome" (.str a.nome)
      (.cons "matricula" (.str a.matricula)
        (.cons "turma" (.str a.turma) .nil))))

/-- JSON form of a loan record (`dataDevolucaoReal` is `null` while the
loan is active). -/
def Emprestimo.toJson (e : Emprestimo) : Json :=
  .obj (.cons "id" (.num e.id)
    (.cons "idLivro" (.num e.idLivro)
      (.cons "idAluno" (.num e.idAluno)
        (.cons "dataEmprestimo" (.str e.dataEmprestimo)
          (.cons "dataPrevistaDevolucao" (.str e.dataPrevistaDevolucao)
            (.cons "dataDevolucaoReal"
              (match e.dataDevolucaoReal with
                | none => .null
                | some d => .str d)
              (.cons "status" (.str e.status) .nil)))))))

/-- Decode a JSON value back into a book record (the shape produced by
`JSON.parse` on an exported book). -/
def Livro.ofJson (j : Json) : Option Livro :=
  match j with
  | .obj o =>
    match o.lookup "id", o.lookup "titulo", o.lookup "autor", o.lookup "isbn",
        o.lookup "quantidadeTotal", o.lookup "quantidadeDisponivel" with
    | some (.num i), some (.str t), some (.str a), some (.str s),
        some (.num qt), some (.num qd) =>
      if 0 ≤ i then some ⟨i.toNat, t, a, s, qt, qd⟩ else none
    | _, _, _, _, _, _ => none
  | _ => none

/-- Decode a JSON value back into a student record. -/
def Aluno.ofJson (j : Json) : Option Aluno :=
  match j with
  | .obj o =>
    match o.lookup "id", o.lookup "nome", o.lookup "matricula", o.lookup "turma" with
    | some (.num i), some (.str n), some (.str m), some (.str t) =>
      if 0 ≤ i then some ⟨i.toNat, n, m, t⟩ else none
    | _, _, _, _ => none
  | _ => none

/-- Decode a JSON value back into a loan record. -/
def Emprestimo.ofJson (j : Json) : Option Emprestimo :=
  match j with
  | .obj o =>
    match o.lookup "id", o.lookup "idLivro", o.lookup "idAluno",
        o.lookup "dataEmprestimo", o.lookup "dataPrevistaDevolucao",
        o.lookup "dataDevolucaoReal", o.lookup "status" with
    | some (.num i), some (.num il), some (.num ia), some (.str de),
        some (.str dp), some dr, some (.str st) =>
      match dr, (if 0 ≤ i ∧ 0 ≤ il ∧ 0 ≤ ia then true else false) with
      | .null, true => some ⟨i.toNat, il.toNat, ia.toNat, de, dp, none, st⟩
      | .str d, true => some ⟨i.toNat, il.toNat, ia.toNat, de, dp, some d, st⟩
      | _, _ => none
    | _, _, _, _, _, _, _ => none
  | _ => none

/-! ## The record store

An IndexedDB object store is modelled as a list of records in ascending
key order.  `idOf` extracts the primary key, `ukOf` the value of the
unique secondary index, if the store has one (`idx_isbn` on `livros`,
`idx_matricula` on `alunos`; `emprestimos` has no unique index). -/

section Store

variable {R : Type} (idOf : R → Nat) (ukOf : R → Option String)

/-- Insert `r` into an ascending-key list, replacing the record with
the same key if present (the write part of IndexedDB `put`). -/
def insertRep : List R → R → List R
  | [], r => [r]
  | x :: xs, r =>
    if idOf r < idOf x then r :: x :: xs
    else if idOf r = idOf x then r :: xs
    else x :: insertRep xs r

/-- IndexedDB `put` on a store with a unique secondary index: fails
(`ConstraintViolation`) when a different record already holds the same
index key, otherwise inserts or replaces by primary key. -/
def putU (s : List R) (r : R) : Option (List R) :=
  if s.any (fun x => idOf x ≠ idOf r ∧ (ukOf r).isSome ∧ ukOf x = ukOf r) then
    none
  else
    some (insertRep idOf s r)

/-- `put` every record of `l`, in order, into `s`; fails if any single
put fails. -/
def foldPut (s : List R) : List R → Option (List R)
  | [] => some s
  | r :: rs =>
    match putU idOf ukOf s r with
    | none => none
    | some s' => foldPut s' rs

/-- IndexedDB `get` by primary key. -/
def findById (s : List R) (i : Nat) : Option R :=
  s.find? (fun x => idOf x = i)

end Store

/-- Primary-key and unique-index extractors for the three stores. -/
def livroUk (l : Livro) : Option String := some l.isbn

/-- Unique index of the `alunos` store. -/
def alunoUk (a : Aluno) : Option String := some a.matricula

/-- The `emprestimos` store has no unique secondary index. -/
def empUk (_ : Emprestimo) : Option String := none

/-- The full database: the three object stores plus their
auto-increment key generators (IndexedDB `clear` does not reset a key
generator, and storing an explicit key at or above the generator bumps
it). -/
structure DBState where
  livros : List Livro
  alunos : List Aluno
  emprestimos : List Emprestimo
  nextLivro : Nat
  nextAluno : Nat
  nextEmprestimo : Nat
  deriving DecidableEq

/-- The empty database, as created on first open. -/
def DBState.empty : DBState := ⟨[], [], [], 1, 1, 1⟩

/-! ## Database operations (db.js)

Every operation returns the committed `(error?, state)` pair; on every
abort or rejection path the returned state is the pre-transaction
state, reflecting IndexedDB's automatic rollback of aborted
transactions. -/

/-- Failure kinds raised by the data layer. -/
inductive DBErr where
  /-- "Livro indisponível para empréstimo." -/
  | unavailable : DBErr
  /-- "Empréstimo inválido ou já devolvido." -/
  | invalidLoanState : DBErr
  /-- A `put` request failed on a unique-index collision and the
  transaction aborted. -/
  | constraintViolation : DBErr
  /-- "Erro: Quantidade total não pode ser menor que os livros já
  emprestados." (pre-save check in `handleSalvarLivro`). -/
  | invalidQuantity : DBErr
  deriving DecidableEq

/-- The loan object built by `handleRegistrarEmprestimo` before calling
`DB.registrarEmprestimo` — no `id` yet (the store assigns one). -/
structure NovoEmprestimo where
  idLivro : Nat
  idAluno : Nat
  dataEmprestimo : String
  dataPrevistaDevolucao : String
  dataDevolucaoReal : Option String
  status : String
  deriving DecidableEq

/-- The loan record `handleRegistrarEmprestimo` constructs:
`status: 'ativo'`, `dataDevolucaoReal: null`. -/
def novoEmprestimo (idLivro idAluno : Nat) (dataEmprestimo dataPrevistaDevolucao : String) :
    NovoEmprestimo :=
  ⟨idLivro, idAluno, dataEmprestimo, dataPrevistaDevolucao, none, "ativo"⟩

/-- The stored loan: the candidate record with the generated key
injected (IndexedDB `add` on an auto-increment store). -/
def NovoEmprestimo.withId (e : NovoEmprestimo) (i : Nat) : Emprestimo :=
  ⟨i, e.idLivro, e.idAluno, e.dataEmprestimo, e.dataPrevistaDevolucao,
    e.dataDevolucaoReal, e.status⟩

/-- `DB.registrarEmprestimo` (db.js): in one readwrite transaction over
`livros` and `emprestimos`, read the book; if absent or
`quantidadeDisponivel <= 0`, abort with `Unavailable`; otherwise
decrement `quantidadeDisponivel`, put the book back and `add` the loan
with a fresh generated key. -/
def registrarEmprestimo (s : DBState) (e : NovoEmprestimo) : Option DBErr × DBState :=
  match findById Livro.id s.livros e.idLivro with
  | none => (some .unavailable, s)
  | some livro =>
    if livro.quantidadeDisponivel ≤ 0 then
      (some .unavailable, s)
    else
      match putU Livro.id livroUk s.livros
          { livro with quantidadeDisponivel := livro.quantidadeDisponivel - 1 } with
      | none => (some .constraintViolation, s)
      | some livros' =>
        (none,
          { s with
            livros := livros'
            emprestimos :=
              insertRep Emprestimo.id s.emprestimos (e.withId s.nextEmprestimo)
            nextEmprestimo := s.nextEmprestimo + 1 })

/-- `DB.registrarDevolucao` (db.js): in one readwrite transaction, read
the loan; if absent or already `'devolvido'`, abort with
`InvalidLoanState`; otherwise set `status := 'devolvido'` and
`dataDevolucaoReal`, put the loan, then read the referenced book and,
only if it still exists, increment its `quantidadeDisponivel` and put
it back. -/
def registrarDevolucao (s : DBState) (idEmprestimo : Nat) (dataDevolucaoReal : String) :
    Option DBErr × DBState :=
  match findById Emprestimo.id s.emprestimos idEmprestimo with
  | none => (some .invalidLoanState, s)
  | some emp =>
    if emp.status = "devolvido" then
      (some .invalidLoanState, s)
    else
      let emp' := { emp with status := "devolvido", dataDevolucaoReal := some dataDevolucaoReal }
      match putU Emprestimo.id empUk s.emprestimos emp' with
      | none => (some .constraintViolation, s)
      | some emprestimos' =>
        match findById Livro.id s.livros emp.idLivro with
        | none => (none, { s with emprestimos := emprestimos' })
        | some livro =>
          match putU Livro.id livroUk s.livros
              { livro with quantidadeDisponivel := livro.quantidadeDisponivel + 1 } with
          | none => (some .constraintViolation, s)
          | some livros' =>
            (none, { s with emprestimos := emprestimos', livros := livros' })

/-- `handleSalvarLivro` (script.js): builds the book from the form with
`quantidadeDisponivel := quantidadeTotal`; when an id is present it
re-reads the old record and sets
`quantidadeDisponivel := old.disponivel + (totalNovo − totalVelho)`,
rejecting a negative result — but when the re-read finds nothing (the
book was deleted meanwhile) the thrown `TypeError` is caught, logged,
and the save proceeds with `quantidadeDisponivel = quantidadeTotal`
under the stale id.  Finally `DB.save` (a plain `put`). -/
def salvarLivro (s : DBState) (idInput : Option Nat)
    (titulo autor isbn : String) (qtdTotal : Int) : Option DBErr × DBState :=
  let base : Livro := ⟨0, titulo, autor, isbn, qtdTotal, qtdTotal⟩
  match idInput with
  | none =>
    -- new book: `put` without an id → key generator assigns `nextLivro`
    match putU Livro.id livroUk s.livros { base with id := s.nextLivro } with
    | none => (some .constraintViolation, s)
    | some livros' => (none, { s with livros := livros', nextLivro := s.nextLivro + 1 })
  | some i =>
    match findById Livro.id s.livros i with
    | some antigo =>
      let disp := antigo.quantidadeDisponivel + (qtdTotal - antigo.quantidadeTotal)
      if disp < 0 then
        (some .invalidQuantity, s)
      else
        match putU Livro.id livroUk s.livros
            { base with id := i, quantidadeDisponivel := disp } with
        | none => (some .constraintViolation, s)
        | some livros' =>
          (none, { s with livros := livros',
                          nextLivro := max s.nextLivro (i + 1) })
    | none =>
      -- stale id: the TypeError from reading the missing record is
      -- caught and the save still runs with disponivel = total
      match putU Livro.id livroUk s.livros { base with id := i } with
      | none => (some .constraintViolation, s)
      | some livros' =>
        (none, { s with livros := livros', nextLivro := max s.nextLivro (i + 1) })

/-- The collections carried by a backup payload, after decoding. -/
structure BackupData where
  livros : List Livro
  alunos : List Aluno
  emprestimos : List Emprestimo
  deriving DecidableEq

/-- Key-generator floor after importing records with explicit ids:
IndexedDB bumps the generator past the largest explicitly stored key. -/
def bumpNext (next : Nat) (ids : List Nat) : Nat :=
  max next ((ids.map (· + 1)).foldr max 0)

/-- `DB.importAllData` (db.js): one readwrite transaction over the
three stores that clears them all and re-inserts every record of the
payload with `put`; if any put fails the transaction aborts and
IndexedDB rolls everything (including the clears) back, so the
committed state is the pre-attempt state. -/
def importAllData (s : DBState) (d : BackupData) : Option DBErr × DBState :=
  match foldPut Livro.id livroUk [] d.livros,
      foldPut Aluno.id alunoUk [] d.alunos,
      foldPut Emprestimo.id empUk [] d.emprestimos with
  | some livros', some alunos', some emprestimos' =>
    (none,
      { livros := livros'
        alunos := alunos'
        emprestimos := emprestimos'
        nextLivro := bumpNext s.nextLivro (d.livros.map Livro.id)
        nextAluno := bumpNext s.nextAluno (d.alunos.map Aluno.id)
        nextEmprestimo := bumpNext s.nextEmprestimo (d.emprestimos.map Emprestimo.id) })
  | _, _, _ => (some .constraintViolation, s)

/-- `DB.exportAllData` reads the three stores with `getAll`; each store
is read in its own `readonly` transaction (three separate transactions,
sequentially awaited). This is the snapshot it returns when no write
intervenes between the three reads. -/
def exportAllData (s : DBState) : BackupData :=
  ⟨s.livros, s.alunos, s.emprestimos⟩

/-- `DB.exportAllData` as actually scheduled: the three `getAll` reads
run in three separate transactions, so the host may commit a write
transaction `w₁` between the `livros` and `alunos` reads and a write
`w₂` between the `alunos` and `emprestimos` reads.  Each collection is
read from the state current at its own read. -/
def exportAllDataInterleaved (s : DBState) (w₁ w₂ : DBState → DBState) : BackupData :=
  ⟨s.livros, (w₁ s).alunos, (w₂ (w₁ s)).emprestimos⟩

/-! ## Backup payload (script.js) -/

namespace JsonObj

/-- Append the fields of `o₂` after those of `o₁` (JS property
insertion order). -/
def append (o₁ o₂ : JsonObj) : JsonObj :=
  match o₁ with
  | .nil => o₂
  | .cons k v t => .cons k v (t.append o₂)

end JsonObj

/-- JSON array of the serialized records of a list. -/
def jsonArrOf {R : Type} (toJson : R → Json) (l : List R) : JsonArr :=
  JsonArr.ofList (l.map toJson)

/-- The backup payload before the checksum field is added, with the
property order used in `exportarDados`: `versao`, `dataExportacao`,
`totalRegistros`, `livros`, `alunos`, `emprestimos`. -/
def payloadSemChecksum (versao dataExportacao : String) (d : BackupData) : JsonObj :=
  .cons "versao" (.str versao)
    (.cons "dataExportacao" (.str dataExportacao)
      (.cons "totalRegistros"
          (.num (d.livros.length + d.alunos.length + d.emprestimos.length))
        (.cons "livros" (.arr (jsonArrOf Livro.toJson d.livros))
          (.cons "alunos" (.arr (jsonArrOf Aluno.toJson d.alunos))
            (.cons "emprestimos" (.arr (jsonArrOf Emprestimo.toJson d.emprestimos)) .nil)))))

/-- `exportarDados` (script.js): builds the payload from
`DB.exportAllData`, sets `totalRegistros` to the sum of the three
collection lengths, and finally assigns
`payload.checksum = gerarChecksumSimples(payload)` — computed over the
object without its `checksum` property, which is appended as the last
field.  `dataExportacao` is `new Date().toISOString()`, kept abstract
here. -/
def exportarDados (s : DBState) (dataExportacao : String) : Json :=
  let o := payloadSemChecksum "1.0" dataExportacao (exportAllData s)
  .obj (o.append (.cons "checksum" (.str (gerarChecksumSimples (.obj o))) .nil))

/-! ## Backup validation (script.js) -/

/-- Failure reasons of `validarBackup` (each a distinct thrown
`Error`). -/
inductive VErr where
  /-- "Estrutura do backup inválida (campos raiz ausentes)." -/
  | malformedRoot : VErr
  /-- "Estrutura de dados corrompida (esperado arrays)." -/
  | corruptCollections : VErr
  /-- "Total de registros não confere com a soma real." -/
  | countMismatch : VErr
  /-- "Checksum inválido. O arquivo foi modificado ou está corrompido." -/
  | checksumMismatch : VErr
  /-- "Item inválido no array (não é objeto)." -/
  | invalidItem : VErr
  /-- "Campo obrigatório '…' ausente em um dos registros." -/
  | missingField (campo : String) : VErr
  deriving DecidableEq

/-- `validarEstrutura` (script.js) on one collection: every item must
be a JS object (`typeof item === 'object' && item !== null`) containing
every required field (`campo in item`).  A JSON array is also
`typeof 'object'` in JS, and then fails the `in` test on the first
field. -/
def validarEstrutura (a : JsonArr) (campos : List String) : Option VErr :=
  match a with
  | .nil => none
  | .cons item rest =>
    match item with
    | .obj o =>
      match campos.find? (fun c => (o.lookup c).isNone) with
      | some c => some (.missingField c)
      | none => validarEstrutura rest campos
    | .arr _ =>
      -- an array has none of the required properties
      match campos.head? with
      | some c => some (.missingField c)
      | none => validarEstrutura rest campos
    | _ => some .invalidItem

/-- `validarBackup` (script.js): the ordered fail-fast checks — root
fields truthy/defined, collections are arrays, `totalRegistros` equals
the actual sum, checksum recomputed over the payload with the
`checksum` property deleted, then per-record required fields.  Returns
`none` when the backup passes.  (A non-object root, impossible for a
parsed backup object, reads every property as `undefined` and fails the
root check.) -/
def validarBackup (j : Json) : Option VErr :=
  let look (k : String) : Option Json :=
    match j with
    | .obj o => o.lookup k
    | _ => none
  -- 2) root structure: !versao || !dataExportacao ||
  --    totalRegistros === undefined || !checksum
  if (look "versao").all (fun v => !jsTruthy v) ∨
      (look "dataExportacao").all (fun v => !jsTruthy v) ∨
      (look "totalRegistros").isNone ∨
      (look "checksum").all (fun v => !jsTruthy v) then
    some .malformedRoot
  else
    -- 3) the three collections must be arrays
    match look "livros", look "alunos", look "emprestimos" with
    | some (.arr livros), some (.arr alunos), some (.arr emprestimos) =>
      -- 6) totalRegistros === soma real (strict equality with a number)
      let somaReal := livros.length + alunos.length + emprestimos.length
      if (look "totalRegistros") ≠ some (.num somaReal) then
        some .countMismatch
      else
        -- 7) checksum over the object with the checksum key deleted
        let recomputed :=
          match j with
          | .obj o => gerarChecksumSimples (.obj (o.removeKey "checksum"))
          | _ => gerarChecksumSimples j
        if (look "checksum") ≠ some (.str recomputed) then
          some .checksumMismatch
        else
          -- 4 & 5) required fields per record
          match validarEstrutura livros
              ["id", "titulo", "autor", "isbn", "quantidadeTotal", "quantidadeDisponivel"] with
          | some e => some e
          | none =>
            match validarEstrutura alunos ["id", "nome", "matricula", "turma"] with
            | some e => some e
            | none =>
              validarEstrutura emprestimos
                ["id", "idLivro", "idAluno", "dataEmprestimo", "dataPrevistaDevolucao", "status"]
    | _, _, _ => some .corruptCollections

/-- Decode a list of JSON records, failing if any one fails. -/
def decodeList {R : Type} (dec : Json → Option R) : List Json → Option (List R)
  | [] => some []
  | j :: t =>
    match dec j, decodeList dec t with
    | some r, some rs => some (r :: rs)
    | _, _ => none

/-- Decode the three collections of a validated payload into typed
records (the shape `DB.importAllData` receives after `JSON.parse`). -/
def decodeBackup (j : Json) : Option BackupData :=
  match j with
  | .obj o =>
    match o.lookup "livros", o.lookup "alunos", o.lookup "emprestimos" with
    | some (.arr livros), some (.arr alunos), some (.arr emprestimos) =>
      match decodeList Livro.ofJson livros.toList, decodeList Aluno.ofJson alunos.toList,
          decodeList Emprestimo.ofJson emprestimos.toList with
      | some ls, some as_, some es => some ⟨ls, as_, es⟩
      | _, _, _ => none
    | _, _, _ => none
  | _ => none

/-! ## Basic facts about the checksum -/

/-- Whitespace-stripped character-code sum of a serialized fragment:
the quantity `gerarChecksumSimples` folds the payload into. -/
def scs (l : List Char) : Nat :=
  charSum (stripWs l)

theorem gerarChecksumSimples_eq_scs (j : Json) :
    gerarChecksumSimples j = hexString (scs (jChars j)) := rfl

theorem scs_append (a b : List Char) : scs (a ++ b) = scs a + scs b := by
  simp [scs, stripWs, charSum, List.filter_append]

theorem scs_cons (c : Char) (l : List Char) :
    scs (c :: l) = (if isJsWs c then 0 else c.toNat) + scs l := by
  simp only [scs, stripWs, charSum, List.filter_cons]
  split <;> simp_all

/-- Numeric value of a hexadecimal digit list (most significant
first). -/
def hexVal (l : List Char) : Nat :=
  l.foldl (fun a c => a * 16 + (if c.toNat ≥ 87 then c.toNat - 87 else c.toNat - 48)) 0

theorem hexVal_foldl (s : Nat) (l : List Char) :
    l.foldl (fun a c => a * 16 + (if c.toNat ≥ 87 then c.toNat - 87 else c.toNat - 48)) s
      = s * 16 ^ l.length + hexVal l := by
  induction l generalizing s with
  | nil => simp [hexVal]
  | cons c t ih =>
    simp only [hexVal, List.foldl_cons, List.length_cons] at *
    rw [ih, ih (0 * 16 + _)]
    ring

theorem hexVal_append (a b : List Char) :
    hexVal (a ++ b) = hexVal a * 16 ^ b.length + hexVal b := by
  simp only [hexVal, List.foldl_append]
  rw [hexVal_foldl]
  rfl

theorem hexVal_digitChar16 {d : Nat} (h : d < 16) : hexVal [digitChar16 d] = d := by
  interval_cases d <;> decide

theorem hexVal_hexAux {f n : Nat} (h : n ≤ f) : hexVal (hexAux f n) = n := by
  induction f generalizing n with
  | zero =>
    have : n = 0 := by omega
    simp [this, hexAux, hexVal]
  | succ f ih =>
    rw [hexAux]
    split
    · exact hexVal_digitChar16 ‹n < 16›
    · have h16 : ¬ n < 16 := ‹¬ n < 16›
      have hdiv : n / 16 ≤ f := by omega
      rw [hexVal_append, hexVal_digitChar16 (Nat.mod_lt _ (by omega)), ih hdiv]
      simp only [List.length_singleton, pow_one]
      omega

/-- `hexString` is injective: distinct accumulator values render to
distinct hexadecimal strings, so a changed character-code sum always
changes the stored checksum string. -/
theorem hexString_injective {a b : Nat} (h : hexString a = hexString b) : a = b := by
  have hd : hexAux (a + 1) a = hexAux (b + 1) b := congrArg String.data h
  calc a = hexVal (hexAux (a + 1) a) := (hexVal_hexAux (by omega)).symm
    _ = hexVal (hexAux (b + 1) b) := by rw [hd]
    _ = b := hexVal_hexAux (by omega)

/-! ## Store lemmas

Well-formedness of a modelled object store: records in strictly
ascending primary-key order (as IndexedDB keeps them) and pairwise
distinct unique-index keys. -/

section StoreLemmas

variable {R : Type} (idOf : R → Nat) (ukOf : R → Option String)

/-- Records in strictly ascending primary-key order. -/
def SortedBy (s : List R) : Prop :=
  s.Pairwise (fun a b => idOf a < idOf b)

/-- No two records share a unique-index key. -/
def UkNodup (s : List R) : Prop :=
  s.Pairwise (fun a b => ∀ u, ukOf a = some u → ukOf b ≠ some u)

theorem mem_insertRep {s : List R} {r x : R} (h : x ∈ insertRep idOf s r) :
    x = r ∨ x ∈ s := by
  induction s with
  | nil => simpa [insertRep] using h
  | cons hd tl ih =>
    rw [insertRep] at h
    by_cases h1 : idOf r < idOf hd
    · rw [if_pos h1] at h
      rcases List.mem_cons.mp h with rfl | h
      · exact .inl rfl
      · exact .inr h
    · rw [if_neg h1] at h
      by_cases h2 : idOf r = idOf hd
      · rw [if_pos h2] at h
        rcases List.mem_cons.mp h with rfl | h
        · exact .inl rfl
        · exact .inr (List.mem_cons_of_mem _ h)
      · rw [if_neg h2] at h
        rcases List.mem_cons.mp h with rfl | h
        · exact .inr (List.mem_cons_self _ _)
        · rcases ih h with h | h
          · exact .inl h
          · exact .inr (List.mem_cons_of_mem _ h)

theorem self_mem_insertRep (s : List R) (r : R) : r ∈ insertRep idOf s r := by
  induction s with
  | nil => simp [insertRep]
  | cons hd tl ih =>
    rw [insertRep]
    by_cases h1 : idOf r < idOf hd
    · rw [if_pos h1]; exact .head _
    · rw [if_neg h1]
      by_cases h2 : idOf r = idOf hd
      · rw [if_pos h2]; exact .head _
      · rw [if_neg h2]; exact .tail _ ih

theorem mem_insertRep_of_ne {s : List R} {r x : R} (hx : x ∈ s)
    (hne : idOf x ≠ idOf r) : x ∈ insertRep idOf s r := by
  induction s with
  | nil => cases hx
  | cons hd tl ih =>
    rw [insertRep]
    by_cases h1 : idOf r < idOf hd
    · rw [if_pos h1]; exact List.mem_cons_of_mem _ hx
    · rw [if_neg h1]
      by_cases h2 : idOf r = idOf hd
      · rw [if_pos h2]
        rcases List.mem_cons.mp hx with rfl | hx
        · exact (hne h2.symm).elim
        · exact List.mem_cons_of_mem _ hx
      · rw [if_neg h2]
        rcases List.mem_cons.mp hx with rfl | hx
        · exact List.mem_cons_self _ _
        · exact List.mem_cons_of_mem _ (ih hx)

theorem mem_insertRep_iff {s : List R} (hs : SortedBy idOf s) (r x : R) :
    x ∈ insertRep idOf s r ↔ x = r ∨ (x ∈ s ∧ idOf x ≠ idOf r) := by
  constructor
  · intro h
    induction s with
    | nil => simpa [insertRep] using h
    | cons hd tl ih =>
      rw [SortedBy, List.pairwise_cons] at hs
      rw [insertRep] at h
      by_cases h1 : idOf r < idOf hd
      · rw [if_pos h1] at h
        rcases List.mem_cons.mp h with rfl | h
        · exact .inl rfl
        · refine .inr ⟨h, ?_⟩
          rcases List.mem_cons.mp h with rfl | h
          · omega
          · have := hs.1 x h
            omega
      · rw [if_neg h1] at h
        by_cases h2 : idOf r = idOf hd
        · rw [if_pos h2] at h
          rcases List.mem_cons.mp h with rfl | h
          · exact .inl rfl
          · have := hs.1 x h
            exact .inr ⟨List.mem_cons_of_mem _ h, by omega⟩
        · rw [if_neg h2] at h
          rcases List.mem_cons.mp h with rfl | h
          · exact .inr ⟨List.mem_cons_self _ _, by omega⟩
          · rcases ih hs.2 h with h | h
            · exact .inl h
            · exact .inr ⟨List.mem_cons_of_mem _ h.1, h.2⟩
  · rintro (rfl | ⟨hx, hne⟩)
    · exact self_mem_insertRep idOf s _
    · exact mem_insertRep_of_ne idOf hx hne

theorem sortedBy_insertRep {s : List R} (hs : SortedBy idOf s) (r : R) :
    SortedBy idOf (insertRep idOf s r) := by
  induction s with
  | nil => simp [insertRep, SortedBy]
  | cons hd tl ih =>
    rw [SortedBy, List.pairwise_cons] at hs
    rw [insertRep]
    by_cases h1 : idOf r < idOf hd
    · rw [if_pos h1]
      exact List.Pairwise.cons
        (fun y hy => by
          rcases List.mem_cons.mp hy with rfl | hy
          · omega
          · have := hs.1 y hy
            omega)
        (List.Pairwise.cons hs.1 hs.2)
    · rw [if_neg h1]
      by_cases h2 : idOf r = idOf hd
      · rw [if_pos h2]
        exact List.Pairwise.cons
          (fun y hy => by
            have := hs.1 y hy
            omega)
          hs.2
      · rw [if_neg h2]
        refine List.Pairwise.cons ?_ (ih hs.2)
        intro y hy
        rcases mem_insertRep idOf hy with rfl | hy
        · omega
        · exact hs.1 y hy

theorem insertRep_append_of_lt {s : List R} {r : R}
    (h : ∀ x ∈ s, idOf x < idOf r) : insertRep idOf s r = s ++ [r] := by
  induction s with
  | nil => simp [insertRep]
  | cons hd tl ih =>
    have hhd := h hd (.head _)
    rw [insertRep, if_neg (by omega), if_neg (by omega)]
    rw [ih fun x hx => h x (.tail _ hx)]
    simp

theorem findById_insertRep_self (s : List R) (r : R) :
    findById idOf (insertRep idOf s r) (idOf r) = some r := by
  induction s with
  | nil => simp [insertRep, findById]
  | cons hd tl ih =>
    rw [insertRep]
    by_cases h1 : idOf r < idOf hd
    · rw [if_pos h1]; simp [findById]
    · rw [if_neg h1]
      by_cases h2 : idOf r = idOf hd
      · rw [if_pos h2]; simp [findById]
      · rw [if_neg h2]
        have hne : ¬ idOf hd = idOf r := by omega
        simpa [findById, List.find?_cons, hne] using ih

theorem findById_insertRep_ne (s : List R) (r : R) {i : Nat} (h : i ≠ idOf r) :
    findById idOf (insertRep idOf s r) i = findById idOf s i := by
  have hr : ¬ idOf r = i := fun h' => h h'.symm
  induction s with
  | nil => simp [insertRep, findById, List.find?_cons, hr]
  | cons hd tl ih =>
    rw [insertRep]
    by_cases h1 : idOf r < idOf hd
    · rw [if_pos h1]; simp [findById, List.find?_cons, hr]
    · rw [if_neg h1]
      by_cases h2 : idOf r = idOf hd
      · rw [if_pos h2]
        have hhd : ¬ idOf hd = i := by omega
        simp [findById, List.find?_cons, hr, hhd]
      · rw [if_neg h2]
        by_cases hhd : idOf hd = i
        · simp [findById, List.find?_cons, hhd]
        · simpa [findById, List.find?_cons, hhd] using ih

theorem findById_mem {s : List R} {i : Nat} {x : R}
    (h : findById idOf s i = some x) : x ∈ s ∧ idOf x = i := by
  have hm := List.mem_of_find?_eq_some h
  have hp := List.find?_some h
  exact ⟨hm, by simpa using hp⟩

theorem findById_eq_none {s : List R} {i : Nat}
    (h : ∀ x ∈ s, idOf x ≠ i) : findById idOf s i = none := by
  rw [findById, List.find?_eq_none]
  intro x hx
  simpa using h x hx

theorem countP_insertRep_absent (p : R → Bool) {s : List R} {r : R}
    (h : findById idOf s (idOf r) = none) :
    (insertRep idOf s r).countP p = s.countP p + (if p r then 1 else 0) := by
  rw [findById, List.find?_eq_none] at h
  induction s with
  | nil => simp [insertRep, List.countP_cons]
  | cons hd tl ih =>
    have hhd : ¬ idOf hd = idOf r := by simpa using h hd (List.mem_cons_self _ _)
    rw [insertRep]
    by_cases h1 : idOf r < idOf hd
    · rw [if_pos h1]
      simp only [List.countP_cons]
    · rw [if_neg h1, if_neg (by omega)]
      rw [List.countP_cons, List.countP_cons,
        ih fun x hx => h x (List.mem_cons_of_mem _ hx)]
      omega

theorem countP_insertRep_present (p : R → Bool) {s : List R} {r old : R}
    (hs : SortedBy idOf s) (h : findById idOf s (idOf r) = some old) :
    (insertRep idOf s r).countP p + (if p old then 1 else 0)
      = s.countP p + (if p r then 1 else 0) := by
  induction s with
  | nil => simp [findById] at h
  | cons hd tl ih =>
    rw [SortedBy, List.pairwise_cons] at hs
    have hmem := (findById_mem idOf h).1
    have hid := (findById_mem idOf h).2
    rw [insertRep]
    by_cases h1 : idOf r < idOf hd
    · exfalso
      rcases List.mem_cons.mp hmem with rfl | hmem
      · omega
      · have := hs.1 old hmem
        omega
    · rw [if_neg h1]
      by_cases h2 : idOf r = idOf hd
      · rw [if_pos h2]
        have : old = hd := by
          rcases List.mem_cons.mp hmem with rfl | hmem
          · rfl
          · have := hs.1 old hmem
            omega
        subst this
        rw [List.countP_cons, List.countP_cons]
        omega
      · rw [if_neg h2]
        have hfind : findById idOf tl (idOf r) = some old := by
          have hne : ¬ idOf hd = idOf r := by omega
          rw [findById, List.find?_cons] at h
          simpa [hne] using h
        have h3 := ih hs.2 hfind
        rw [List.countP_cons, List.countP_cons]
        omega

theorem putU_some_eq {s : List R} {r : R} {t : List R}
    (h : putU idOf ukOf s r = some t) : t = insertRep idOf s r := by
  rw [putU] at h
  split at h
  · cases h
  · exact (Option.some_inj.mp h).symm

theorem putU_eq_some_of {s : List R} {r : R}
    (h : ∀ x ∈ s, idOf x = idOf r ∨ ∀ u, ukOf r = some u → ukOf x ≠ some u) :
    putU idOf ukOf s r = some (insertRep idOf s r) := by
  rw [putU, if_neg]
  intro hc
  rw [List.any_eq_true] at hc
  obtain ⟨x, hx, hcx⟩ := hc
  rw [decide_eq_true_eq] at hcx
  obtain ⟨hne, hsome, heq⟩ := hcx
  obtain ⟨u, hu⟩ := Option.isSome_iff_exists.mp hsome
  rcases h x hx with h' | h'
  · exact hne h'
  · exact h' u hu (heq.trans hu)

theorem putU_of_uk_none {s : List R} {r : R} (hr : ukOf r = none) :
    putU idOf ukOf s r = some (insertRep idOf s r) :=
  putU_eq_some_of idOf ukOf fun x _ => .inr fun u hu => by rw [hr] at hu; cases hu

/-- The symmetric relation underlying `UkNodup`. -/
theorem ukRel_symmetric :
    Symmetric (fun a b : R => ∀ u, ukOf a = some u → ukOf b ≠ some u) := by
  intro a b h u hb ha
  exact h u ha hb

/-- Putting back a record with the key and unique-index value of a
record already in a well-formed store always succeeds. -/
theorem putU_replace_self {s : List R} {r old : R}
    (hu : UkNodup ukOf s) (hold : old ∈ s) (hid : idOf r = idOf old)
    (huk : ukOf r = ukOf old) :
    putU idOf ukOf s r = some (insertRep idOf s r) := by
  refine putU_eq_some_of idOf ukOf fun x hx => ?_
  by_cases hxid : idOf x = idOf r
  · exact .inl hxid
  · refine .inr fun u hru hxu => ?_
    have hxold : x ≠ old := fun h => hxid (by rw [h, hid])
    have := (hu.forall (ukRel_symmetric ukOf)) hx hold hxold
    exact this u hxu (by rw [← huk, hru])

theorem ukNodup_insertRep {s : List R} {r : R}
    (hs : SortedBy idOf s) (hu : UkNodup ukOf s)
    (hnc : ∀ x ∈ s, idOf x ≠ idOf r → ∀ u, ukOf r = some u → ukOf x ≠ some u) :
    UkNodup ukOf (insertRep idOf s r) := by
  induction s with
  | nil => simp [insertRep, UkNodup]
  | cons hd tl ih =>
    rw [SortedBy, List.pairwise_cons] at hs
    rw [UkNodup, List.pairwise_cons] at hu
    rw [insertRep]
    by_cases h1 : idOf r < idOf hd
    · rw [if_pos h1]
      refine List.Pairwise.cons ?_ (List.Pairwise.cons hu.1 hu.2)
      intro y hy u hru hyu
      have hyne : idOf y ≠ idOf r := by
        rcases List.mem_cons.mp hy with rfl | hy
        · omega
        · have := hs.1 y hy
          omega
      exact hnc y hy hyne u hru hyu
    · rw [if_neg h1]
      by_cases h2 : idOf r = idOf hd
      · rw [if_pos h2]
        refine List.Pairwise.cons ?_ hu.2
        intro y hy u hru hyu
        have := hs.1 y hy
        exact hnc y (List.mem_cons_of_mem _ hy) (by omega) u hru hyu
      · rw [if_neg h2]
        refine List.Pairwise.cons ?_
          (ih hs.2 hu.2 fun x hx => hnc x (List.mem_cons_of_mem _ hx))
        intro y hy u hhd hyu
        rcases mem_insertRep idOf hy with rfl | hy
        · exact hnc hd (List.mem_cons_self _ _) (by omega) u hyu hhd
        · exact hu.1 y hy u hhd hyu

theorem foldPut_append (acc : List R) (u v : List R) :
    foldPut idOf ukOf acc (u ++ v)
      = (foldPut idOf ukOf acc u).bind (fun m => foldPut idOf ukOf m v) := by
  induction u generalizing acc with
  | nil => simp [foldPut]
  | cons r rs ih =>
    rw [List.cons_append, foldPut, foldPut]
    cases putU idOf ukOf acc r with
    | none => simp
    | some acc' => exact ih acc'

theorem foldPut_sorted {acc l : List R} {res : List R}
    (hs : SortedBy idOf acc) (h : foldPut idOf ukOf acc l = some res) :
    SortedBy idOf res := by
  induction l generalizing acc with
  | nil => rw [foldPut] at h; cases h; exact hs
  | cons r rs ih =>
    rw [foldPut] at h
    cases hput : putU idOf ukOf acc r with
    | none => rw [hput] at h; cases h
    | some acc' =>
      rw [hput] at h
      have := putU_some_eq idOf ukOf hput
      subst this
      exact ih (sortedBy_insertRep idOf hs r) h

/-- Re-inserting a well-formed store's own records in order reproduces
the store exactly. -/
theorem foldPut_self {acc l : List R}
    (hs : SortedBy idOf (acc ++ l)) (hu : UkNodup ukOf (acc ++ l)) :
    foldPut idOf ukOf acc l = some (acc ++ l) := by
  induction l generalizing acc with
  | nil => simp [foldPut]
  | cons r rs ih =>
    rw [foldPut]
    have hput : putU idOf ukOf acc r = some (insertRep idOf acc r) := by
      refine putU_eq_some_of idOf ukOf fun x hx => .inr fun u hru hxu => ?_
      rw [UkNodup, List.pairwise_append] at hu
      exact hu.2.2 x hx r (List.mem_cons_self _ _) u hxu hru
    have hins : insertRep idOf acc r = acc ++ [r] := by
      refine insertRep_append_of_lt idOf fun x hx => ?_
      rw [SortedBy, List.pairwise_append] at hs
      exact hs.2.2 x hx r (List.mem_cons_self _ _)
    rw [hput, hins]
    have hcast : (acc ++ [r]) ++ rs = acc ++ r :: rs := by simp
    show foldPut idOf ukOf (acc ++ [r]) rs = some (acc ++ r :: rs)
    rw [ih (by rw [hcast]; exact hs) (by rw [hcast]; exact hu), hcast]

theorem filter_insertRep {s : List R} (hs : SortedBy idOf s) (r : R) (k : Nat) :
    (insertRep idOf s r).filter (fun x => idOf x = k)
      = if idOf r = k then [r] else s.filter (fun x => idOf x = k) := by
  induction s with
  | nil =>
    rw [insertRep]
    by_cases h : idOf r = k <;> simp [h]
  | cons hd tl ih =>
    rw [SortedBy, List.pairwise_cons] at hs
    have htl_none : idOf r < idOf hd →
        tl.filter (fun x => idOf x = idOf r) = [] := by
      intro hlt
      rw [List.filter_eq_nil_iff]
      intro y hy
      have := hs.1 y hy
      simp
      omega
    rw [insertRep]
    by_cases h1 : idOf r < idOf hd
    · rw [if_pos h1]
      by_cases hk : idOf r = k
      · subst hk
        have h2 : ¬ idOf hd = idOf r := by omega
        simp [List.filter_cons, h2, htl_none h1]
      · have : ¬ (idOf r = k) := hk
        simp [List.filter_cons, this, hk]
    · rw [if_neg h1]
      by_cases h2 : idOf r = idOf hd
      · rw [if_pos h2]
        by_cases hk : idOf r = k
        · subst hk
          have hhd : idOf hd = idOf r := h2.symm
          have : tl.filter (fun x => idOf x = idOf r) = [] := by
            rw [List.filter_eq_nil_iff]
            intro y hy
            have := hs.1 y hy
            simp
            omega
          simp [List.filter_cons, hhd, this]
        · have hhd : ¬ idOf hd = k := by omega
          simp [List.filter_cons, hk, hhd]
      · rw [if_neg h2]
        by_cases hhd : idOf hd = k
        · have hk : ¬ idOf r = k := by omega
          simp [List.filter_cons, hhd, hk, ih hs.2]
        · simp [List.filter_cons, hhd, ih hs.2]

theorem getLast?_cons_eq (a : R) (l : List R) :
    (a :: l).getLast? = match l.getLast? with
      | some w => some w
      | none => some a := by
  cases l with
  | nil => simp
  | cons b t =>
    rw [List.getLast?_cons_cons]
    cases h : (b :: t).getLast? with
    | none => exact absurd (List.getLast?_eq_none_iff.mp h) (by simp)
    | some w => rfl

/-- After a successful bulk insert, the records holding key `k` are:
the last payload record with that key if the payload mentions `k`, and
the accumulator's records with key `k` otherwise — IndexedDB `put` is
last-write-wins per key. -/
theorem foldPut_filter_key {acc l res : List R} (k : Nat)
    (hs : SortedBy idOf acc) (hres : foldPut idOf ukOf acc l = some res) :
    res.filter (fun x => idOf x = k)
      = match (l.filter (fun x => idOf x = k)).getLast? with
        | some w => [w]
        | none => acc.filter (fun x => idOf x = k) := by
  induction l generalizing acc with
  | nil =>
    rw [foldPut] at hres
    cases hres
    simp
  | cons r rs ih =>
    rw [foldPut] at hres
    cases hput : putU idOf ukOf acc r with
    | none => rw [hput] at hres; cases hres
    | some acc' =>
      rw [hput] at hres
      have hacc' := putU_some_eq idOf ukOf hput
      subst hacc'
      have hrec := ih (sortedBy_insertRep idOf hs r) hres
      rw [List.filter_cons]
      by_cases hk : idOf r = k
      · rw [if_pos (by simpa using hk)]
        rw [getLast?_cons_eq]
        cases hlast : (rs.filter (fun x => idOf x = k)).getLast? with
        | some w => rw [hlast] at hrec; exact hrec
        | none =>
          rw [hlast] at hrec
          rw [hrec, filter_insertRep idOf hs r k, if_pos hk]
      · rw [if_neg (by simpa using hk)]
        cases hlast : (rs.filter (fun x => idOf x = k)).getLast? with
        | some w => rw [hlast] at hrec; exact hrec
        | none =>
          rw [hlast] at hrec
          rw [hrec, filter_insertRep idOf hs r k, if_neg hk]

theorem length_insertRep_le (s : List R) (r : R) :
    (insertRep idOf s r).length ≤ s.length + 1 := by
  induction s with
  | nil => simp [insertRep]
  | cons hd tl ih =>
    rw [insertRep]
    by_cases h1 : idOf r < idOf hd
    · simp [if_pos h1]
    · rw [if_neg h1]
      by_cases h2 : idOf r = idOf hd
      · simp [if_pos h2]
      · rw [if_neg h2]
        simp only [List.length_cons]
        omega

theorem length_insertRep_of_mem {s : List R} {r : R} (hs : SortedBy idOf s)
    (h : ∃ x ∈ s, idOf x = idOf r) : (insertRep idOf s r).length = s.length := by
  induction s with
  | nil => simp at h
  | cons hd tl ih =>
    rw [SortedBy, List.pairwise_cons] at hs
    obtain ⟨x, hx, hxid⟩ := h
    rw [insertRep]
    by_cases h1 : idOf r < idOf hd
    · exfalso
      rcases List.mem_cons.mp hx with rfl | hx
      · omega
      · have := hs.1 x hx
        omega
    · rw [if_neg h1]
      by_cases h2 : idOf r = idOf hd
      · simp [if_pos h2]
      · rw [if_neg h2]
        have hxtl : x ∈ tl := by
          rcases List.mem_cons.mp hx with rfl | hx
          · omega
          · exact hx
        simp only [List.length_cons]
        rw [ih hs.2 ⟨x, hxtl, hxid⟩]

theorem key_mem_insertRep {s : List R} {j : Nat} (r : R)
    (h : ∃ x ∈ s, idOf x = j) : ∃ x ∈ insertRep idOf s r, idOf x = j := by
  obtain ⟨x, hx, hxid⟩ := h
  by_cases hne : idOf x = idOf r
  · exact ⟨r, self_mem_insertRep idOf s r, by omega⟩
  · exact ⟨x, mem_insertRep_of_ne idOf hx hne, hxid⟩

theorem foldPut_length_le {acc l res : List R}
    (hres : foldPut idOf ukOf acc l = some res) :
    res.length ≤ acc.length + l.length := by
  induction l generalizing acc with
  | nil => rw [foldPut] at hres; cases hres; simp
  | cons r rs ih =>
    rw [foldPut] at hres
    cases hput : putU idOf ukOf acc r with
    | none => rw [hput] at hres; cases hres
    | some acc' =>
      rw [hput] at hres
      have hacc' := putU_some_eq idOf ukOf hput
      subst hacc'
      have := ih hres
      have := length_insertRep_le idOf acc r
      simp only [List.length_cons]
      omega

theorem foldPut_key_mem {acc l res : List R} {j : Nat}
    (hres : foldPut idOf ukOf acc l = some res)
    (h : ∃ x ∈ acc, idOf x = j) : ∃ x ∈ res, idOf x = j := by
  induction l generalizing acc with
  | nil => rw [foldPut] at hres; cases hres; exact h
  | cons r rs ih =>
    rw [foldPut] at hres
    cases hput : putU idOf ukOf acc r with
    | none => rw [hput] at hres; cases hres
    | some acc' =>
      rw [hput] at hres
      have hacc' := putU_some_eq idOf ukOf hput
      subst hacc'
      exact ih hres (key_mem_insertRep idOf r h)

/-- A payload containing two records with the same key loses at least
one record in a bulk insert. -/
theorem foldPut_length_lt {acc res : List R} {l₁ l₂ l₃ : List R} {a b : R}
    (hs : SortedBy idOf acc) (hid : idOf a = idOf b)
    (hres : foldPut idOf ukOf acc (l₁ ++ a :: l₂ ++ b :: l₃) = some res) :
    res.length ≤ acc.length + (l₁ ++ a :: l₂ ++ b :: l₃).length - 1 := by
  rw [foldPut_append] at hres
  cases h2 : foldPut idOf ukOf acc (l₁ ++ a :: l₂) with
  | none => rw [h2] at hres; cases hres
  | some m₂ =>
    rw [h2, Option.some_bind, foldPut] at hres
    cases h3 : putU idOf ukOf m₂ b with
    | none => rw [h3] at hres; cases hres
    | some m₃ =>
      rw [h3] at hres
      have hm₃ := putU_some_eq idOf ukOf h3
      subst hm₃
      -- decompose the first half to see that m₂ already holds the key of `a`
      rw [foldPut_append] at h2
      cases h1 : foldPut idOf ukOf acc l₁ with
      | none => rw [h1] at h2; cases h2
      | some m₁ =>
        rw [h1, Option.some_bind, foldPut] at h2
        cases h4 : putU idOf ukOf m₁ a with
        | none => rw [h4] at h2; cases h2
        | some m₁' =>
          rw [h4] at h2
          have hm₁' := putU_some_eq idOf ukOf h4
          subst hm₁'
          have hsort₁ : SortedBy idOf m₁ := foldPut_sorted idOf ukOf hs h1
          have hkey : ∃ x ∈ m₂, idOf x = idOf b :=
            foldPut_key_mem idOf ukOf h2 ⟨a, self_mem_insertRep idOf m₁ a, hid⟩
          have hsort₂ : SortedBy idOf m₂ :=
            foldPut_sorted idOf ukOf (sortedBy_insertRep idOf hsort₁ a) h2
          have hlen₁ := foldPut_length_le idOf ukOf h1
          have hlen₂ := foldPut_length_le idOf ukOf h2
          have hlen₃ := foldPut_length_le idOf ukOf hres
          have hlenrep := length_insertRep_of_mem idOf hsort₂ hkey
          have hlenrep₁ := length_insertRep_le idOf m₁ a
          simp only [List.length_append, List.length_cons] at *
          omega

end StoreLemmas

theorem foldPut_some_of_compat {R : Type} (idOf : R → Nat) (ukOf : R → Option String)
    {acc l : List R}
    (hacc : ∀ x ∈ acc, ∀ r ∈ l, ∀ u, ukOf r = some u → ukOf x = some u → idOf x = idOf r)
    (hl : ∀ x ∈ l, ∀ y ∈ l, ∀ u, ukOf x = some u → ukOf y = some u → idOf x = idOf y) :
    ∃ res, foldPut idOf ukOf acc l = some res := by
  induction l generalizing acc with
  | nil => exact ⟨acc, rfl⟩
  | cons r rs ih =>
    rw [foldPut]
    have hput : putU idOf ukOf acc r = some (insertRep idOf acc r) := by
      refine putU_eq_some_of idOf ukOf fun x hx => ?_
      by_cases hxid : idOf x = idOf r
      · exact .inl hxid
      · refine .inr fun u hru hxu => ?_
        exact hxid (hacc x hx r (List.mem_cons_self _ _) u hru hxu)
    rw [hput]
    refine ih ?_ ?_
    · intro x hx r' hr' u hu hxu
      rcases mem_insertRep idOf hx with rfl | hx
      · exact hl x (List.mem_cons_self _ _) r' (List.mem_cons_of_mem _ hr') u hxu hu
      · exact hacc x hx r' (List.mem_cons_of_mem _ hr') u hu hxu
    · intro x hx y hy u hx' hy'
      exact hl x (List.mem_cons_of_mem _ hx) y (List.mem_cons_of_mem _ hy) u hx' hy'

/-! ## Database well-formedness

The invariants IndexedDB itself maintains for the three stores:
ascending primary keys, unique secondary index values, and keys below
the respective generator. -/

/-- Store-level well-formedness of a database state. -/
def WF (s : DBState) : Prop :=
  SortedBy Livro.id s.livros ∧ SortedBy Aluno.id s.alunos ∧
    SortedBy Emprestimo.id s.emprestimos ∧
    UkNodup livroUk s.livros ∧ UkNodup alunoUk s.alunos ∧
    (∀ l ∈ s.livros, l.id < s.nextLivro) ∧
    (∀ a ∈ s.alunos, a.id < s.nextAluno) ∧
    (∀ e ∈ s.emprestimos, e.id < s.nextEmprestimo)

/-! ## Claim C4 — checkout of an unavailable book -/

/-- C4: for every checkout request whose referenced book is absent or
has `quantidadeDisponivel ≤ 0`, `registrarEmprestimo` fails with the
`Unavailable` reason and the committed state is exactly the
pre-transaction state: the book is not decremented and no loan record
is created. -/
theorem registrarEmprestimo_unavailable (s : DBState) (e : NovoEmprestimo)
    (h : findById Livro.id s.livros e.idLivro = none ∨
      ∃ livro, findById Livro.id s.livros e.idLivro = some livro ∧
        livro.quantidadeDisponivel ≤ 0) :
    registrarEmprestimo s e = (some .unavailable, s) := by
  rcases h with h | ⟨livro, h, hq⟩
  · rw [registrarEmprestimo, h]
  · rw [registrarEmprestimo, h]
    simp only [if_pos hq]

/-- Witness for C4: a store whose only book has no available copies
rejects the checkout and is left untouched. -/
theorem registrarEmprestimo_unavailable_witness :
    registrarEmprestimo ⟨[⟨1, "T", "A", "I", 1, 0⟩], [], [], 2, 1, 1⟩
        (novoEmprestimo 1 9 "2024-01-01" "2024-01-08")
      = (some .unavailable, ⟨[⟨1, "T", "A", "I", 1, 0⟩], [], [], 2, 1, 1⟩) :=
  registrarEmprestimo_unavailable _ _
    (.inr ⟨⟨1, "T", "A", "I", 1, 0⟩, by decide, by decide⟩)

/-! ## Claim C3 — bulk import aborts atomically -/

/-- C3: whenever `importAllData` reports a failure (any insert of the
single readwrite transaction failed), the committed database state is
exactly the pre-attempt state — the transaction abort also rolls back
the three `clear()`s, so no cleared-but-not-repopulated state is ever
visible. -/
theorem importAllData_rollback (s : DBState) (d : BackupData)
    (h : (importAllData s d).1.isSome) : (importAllData s d).2 = s := by
  revert h
  unfold importAllData
  split
  · intro h
    exact absurd h (by simp)
  · intro _
    rfl

/-- Witness for C3: importing a payload whose two books collide on the
unique `isbn` index fails and leaves the pre-existing store intact. -/
theorem importAllData_rollback_witness :
    (importAllData ⟨[⟨1, "T", "A", "I", 1, 1⟩], [], [], 2, 1, 1⟩
        ⟨[⟨1, "X", "AX", "dup", 1, 1⟩, ⟨2, "Y", "AY", "dup", 1, 1⟩], [], []⟩).1.isSome
      ∧ (importAllData ⟨[⟨1, "T", "A", "I", 1, 1⟩], [], [], 2, 1, 1⟩
          ⟨[⟨1, "X", "AX", "dup", 1, 1⟩, ⟨2, "Y", "AY", "dup", 1, 1⟩], [], []⟩).2
        = ⟨[⟨1, "T", "A", "I", 1, 1⟩], [], [], 2, 1, 1⟩ :=
  ⟨by decide, importAllData_rollback _ _ (by decide)⟩

/-! ## Claim C8 — export is not a single-transaction snapshot -/

/-- Counterexample to C8: `exportAllData` issues three separate
`readonly` transactions, one per store; a write transaction (here a
checkout) committing between the `livros` read and the later reads
yields an export equal to no point-in-time snapshot of the run — it
mixes the old book row with the new loan row. -/
theorem exportAllData_interleaving_counterexample :
    exportAllDataInterleaved ⟨[⟨1, "T", "A", "I", 2, 2⟩], [], [], 2, 1, 1⟩
        (fun s => (registrarEmprestimo s (novoEmprestimo 1 1 "2024-01-01" "2024-01-08")).2)
        id
      ≠ exportAllData ⟨[⟨1, "T", "A", "I", 2, 2⟩], [], [], 2, 1, 1⟩
    ∧ exportAllDataInterleaved ⟨[⟨1, "T", "A", "I", 2, 2⟩], [], [], 2, 1, 1⟩
        (fun s => (registrarEmprestimo s (novoEmprestimo 1 1 "2024-01-01" "2024-01-08")).2)
        id
      ≠ exportAllData
        ((fun s => (registrarEmprestimo s (novoEmprestimo 1 1 "2024-01-01" "2024-01-08")).2)
          ⟨[⟨1, "T", "A", "I", 2, 2⟩], [], [], 2, 1, 1⟩) := by
  constructor
  · intro h
    exact absurd (congrArg BackupData.emprestimos h) (by decide)
  · intro h
    exact absurd (congrArg BackupData.livros h) (by decide)

/-- C8 (amended): each collection of `exportAllData` is a consistent
read of the state current at its own `readonly` transaction; when no
write intervenes between the three reads the export equals the atomic
snapshot of the initial state. -/
theorem exportAllDataInterleaved_per_read (s : DBState) (w₁ w₂ : DBState → DBState) :
    (exportAllDataInterleaved s w₁ w₂).livros = s.livros ∧
    (exportAllDataInterleaved s w₁ w₂).alunos = (w₁ s).alunos ∧
    (exportAllDataInterleaved s w₁ w₂).emprestimos = (w₂ (w₁ s)).emprestimos ∧
    exportAllDataInterleaved s id id = exportAllData s :=
  ⟨rfl, rfl, rfl, rfl⟩

/-! ## Claim C10 — duplicate ids in an imported snapshot -/

/-- Counterexample to C10 as stated: duplicate primary keys alone do
not guarantee an error-free import, because `put` still faults on the
unique secondary indexes.  This snapshot's `livros` sequence contains
two records with id 2 (a duplicate id in one collection), yet
importing fails: the second record shares its isbn with the first record
(which has the distinct id 1), so its `put` faults on the unique
`idx_isbn` index, the transaction aborts, and the store is left
unchanged instead of succeeding without any error. -/
theorem importAllData_duplicate_id_counterexample :
    (([⟨1, "T1", "A", "X", 1, 1⟩, ⟨2, "T2", "B", "X", 1, 1⟩,
        ⟨2, "T3", "B", "Y", 1, 1⟩] : List Livro).map Livro.id = [1, 2, 2]) ∧
    (importAllData DBState.empty
      ⟨[⟨1, "T1", "A", "X", 1, 1⟩, ⟨2, "T2", "B", "X", 1, 1⟩,
        ⟨2, "T3", "B", "Y", 1, 1⟩], [], []⟩).1 = some .constraintViolation ∧
    (importAllData DBState.empty
      ⟨[⟨1, "T1", "A", "X", 1, 1⟩, ⟨2, "T2", "B", "X", 1, 1⟩,
        ⟨2, "T3", "B", "Y", 1, 1⟩], [], []⟩).2 = DBState.empty := by
  decide

/-- C10 (amended): importing a snapshot whose `livros` sequence
contains two records with the same id succeeds without error, provided
the snapshot is free of cross-id unique-index collisions — no two
`livros` records with distinct ids share an isbn and no two `alunos`
records with distinct ids share a matricula (otherwise a `put` faults
on the unique index and the import aborts — see the counterexample).
Under that proviso `put` never faults on the duplicate primary key, it
overwrites: the resulting store keeps exactly one record with the
duplicated id, namely the one occurring last in the sequence, and the
total number of stored records is strictly below the payload's record
count.  (The same argument applies verbatim to a duplicate placed in
`alunos` or `emprestimos`; the theorem exhibits it for `livros`.) -/
theorem importAllData_duplicate_id_last_wins (s : DBState) (d : BackupData)
    (l₁ l₂ l₃ : List Livro) (a b : Livro)
    (hdecomp : d.livros = l₁ ++ a :: l₂ ++ b :: l₃)
    (hid : a.id = b.id)
    (hisbn : ∀ x ∈ d.livros, ∀ y ∈ d.livros, x.isbn = y.isbn → x.id = y.id)
    (hmat : ∀ x ∈ d.alunos, ∀ y ∈ d.alunos, x.matricula = y.matricula → x.id = y.id) :
    (importAllData s d).1 = none ∧
    (∃ w, (d.livros.filter (fun x => x.id = b.id)).getLast? = some w ∧
      (importAllData s d).2.livros.filter (fun x => x.id = b.id) = [w]) ∧
    (importAllData s d).2.livros.length + (importAllData s d).2.alunos.length +
        (importAllData s d).2.emprestimos.length
      < d.livros.length + d.alunos.length + d.emprestimos.length := by
  obtain ⟨L, hL⟩ := @foldPut_some_of_compat Livro Livro.id livroUk [] d.livros
    (by simp)
    (fun x hx y hy u hx' hy' => by
      simp only [livroUk, Option.some_inj] at hx' hy'
      exact hisbn x hx y hy (hx'.trans hy'.symm))
  obtain ⟨A, hA⟩ := @foldPut_some_of_compat Aluno Aluno.id alunoUk [] d.alunos
    (by simp)
    (fun x hx y hy u hx' hy' => by
      simp only [alunoUk, Option.some_inj] at hx' hy'
      exact hmat x hx y hy (hx'.trans hy'.symm))
  obtain ⟨E, hE⟩ := @foldPut_some_of_compat Emprestimo Emprestimo.id empUk [] d.emprestimos
    (by simp [empUk]) (by simp [empUk])
  have hfilter := @foldPut_filter_key Livro Livro.id livroUk [] d.livros L b.id
    (by simp [SortedBy]) hL
  have hbmem : b ∈ d.livros.filter (fun x => x.id = b.id) := by
    rw [hdecomp]
    simp [List.mem_filter]
  have hne : d.livros.filter (fun x => x.id = b.id) ≠ [] :=
    fun hnil => by rw [hnil] at hbmem; cases hbmem
  obtain ⟨w, hw⟩ : ∃ w, (d.livros.filter (fun x => x.id = b.id)).getLast? = some w := by
    cases hlast : (d.livros.filter (fun x => x.id = b.id)).getLast? with
    | none => exact absurd (List.getLast?_eq_none_iff.mp hlast) hne
    | some w => exact ⟨w, rfl⟩
  have hlenL : L.length ≤ ([] : List Livro).length + (l₁ ++ a :: l₂ ++ b :: l₃).length - 1 :=
    @foldPut_length_lt Livro Livro.id livroUk [] L l₁ l₂ l₃ a b (by simp [SortedBy]) hid
      (hdecomp ▸ hL)
  have hlend : d.livros.length = (l₁ ++ a :: l₂ ++ b :: l₃).length := by rw [hdecomp]
  have hlenA := foldPut_length_le Aluno.id alunoUk hA
  have hlenE := foldPut_length_le Emprestimo.id empUk hE
  have himp : importAllData s d
      = (none, ⟨L, A, E, bumpNext s.nextLivro (d.livros.map Livro.id),
          bumpNext s.nextAluno (d.alunos.map Aluno.id),
          bumpNext s.nextEmprestimo (d.emprestimos.map Emprestimo.id)⟩) := by
    rw [importAllData, hL, hA, hE]
  rw [himp]
  refine ⟨rfl, ⟨w, hw, ?_⟩, ?_⟩
  · show L.filter (fun x => x.id = b.id) = [w]
    rw [hfilter, hw]
  · show L.length + A.length + E.length < _
    simp only [List.length_nil, List.length_append, List.length_cons] at hlenL hlenA hlenE hlend
    omega

/-- Witness for C10: a payload listing two books with id 1 imports
without error, stores only the second of them, and ends up with fewer
records than the payload carried. -/
theorem importAllData_duplicate_id_last_wins_witness :
    (importAllData DBState.empty ⟨[⟨1, "X", "AX", "I1", 1, 1⟩, ⟨1, "Y", "AY", "I2", 2, 2⟩], [], []⟩).1 = none
    ∧ (∃ w, (([⟨1, "X", "AX", "I1", 1, 1⟩, ⟨1, "Y", "AY", "I2", 2, 2⟩] :
          List Livro).filter (fun x => x.id = 1)).getLast? = some w ∧
        (importAllData DBState.empty
          ⟨[⟨1, "X", "AX", "I1", 1, 1⟩, ⟨1, "Y", "AY", "I2", 2, 2⟩], [], []⟩).2.livros.filter
            (fun x => x.id = 1) = [w])
    ∧ (importAllData DBState.empty
          ⟨[⟨1, "X", "AX", "I1", 1, 1⟩, ⟨1, "Y", "AY", "I2", 2, 2⟩], [], []⟩).2.livros.length
        + (importAllData DBState.empty
            ⟨[⟨1, "X", "AX", "I1", 1, 1⟩, ⟨1, "Y", "AY", "I2", 2, 2⟩], [], []⟩).2.alunos.length
        + (importAllData DBState.empty
            ⟨[⟨1, "X", "AX", "I1", 1, 1⟩, ⟨1, "Y", "AY", "I2", 2, 2⟩], [], []⟩).2.emprestimos.length
      < 2 + 0 + 0 :=
  importAllData_duplicate_id_last_wins DBState.empty
    ⟨[⟨1, "X", "AX", "I1", 1, 1⟩, ⟨1, "Y", "AY", "I2", 2, 2⟩], [], []⟩
    [] [] [] ⟨1, "X", "AX", "I1", 1, 1⟩ ⟨1, "Y", "AY", "I2", 2, 2⟩
    (by decide) (by decide) (by decide) (by decide)

/-! ## Claim C6 — successful checkout -/

/-- C6: a successful checkout decrements the referenced book's
`quantidadeDisponivel` by exactly 1, leaves every other book and all
students untouched, and appends exactly one new loan record — the one
built by `handleRegistrarEmprestimo`, with `status = 'ativo'` and
`dataDevolucaoReal` absent — under the freshly generated key. -/
theorem registrarEmprestimo_success (s : DBState) (idLivro idAluno : Nat)
    (dataE dataP : String) (livro : Livro) (hwf : WF s)
    (hfind : findById Livro.id s.livros idLivro = some livro)
    (hdisp : 0 < livro.quantidadeDisponivel) :
    (registrarEmprestimo s (novoEmprestimo idLivro idAluno dataE dataP)).1 = none ∧
    (registrarEmprestimo s (novoEmprestimo idLivro idAluno dataE dataP)).2.emprestimos
      = s.emprestimos ++ [⟨s.nextEmprestimo, idLivro, idAluno, dataE, dataP, none, "ativo"⟩] ∧
    findById Livro.id
        (registrarEmprestimo s (novoEmprestimo idLivro idAluno dataE dataP)).2.livros idLivro
      = some { livro with quantidadeDisponivel := livro.quantidadeDisponivel - 1 } ∧
    (∀ j, j ≠ idLivro →
      findById Livro.id
          (registrarEmprestimo s (novoEmprestimo idLivro idAluno dataE dataP)).2.livros j
        = findById Livro.id s.livros j) ∧
    (registrarEmprestimo s (novoEmprestimo idLivro idAluno dataE dataP)).2.alunos = s.alunos ∧
    (registrarEmprestimo s (novoEmprestimo idLivro idAluno dataE dataP)).2.emprestimos.length
      = s.emprestimos.length + 1 := by
  obtain ⟨hsl, -, hse, hul, -, -, -, hbe⟩ := hwf
  have hmem := findById_mem Livro.id hfind
  have hput : putU Livro.id livroUk s.livros
      { livro with quantidadeDisponivel := livro.quantidadeDisponivel - 1 }
      = some (insertRep Livro.id s.livros
          { livro with quantidadeDisponivel := livro.quantidadeDisponivel - 1 }) :=
    putU_replace_self Livro.id livroUk hul hmem.1 rfl rfl
  have hr : registrarEmprestimo s (novoEmprestimo idLivro idAluno dataE dataP)
      = (none,
          { s with
            livros := insertRep Livro.id s.livros
              { livro with quantidadeDisponivel := livro.quantidadeDisponivel - 1 }
            emprestimos := insertRep Emprestimo.id s.emprestimos
              ((novoEmprestimo idLivro idAluno dataE dataP).withId s.nextEmprestimo)
            nextEmprestimo := s.nextEmprestimo + 1 }) := by
    rw [registrarEmprestimo]
    dsimp only [novoEmprestimo]
    rw [hfind]
    dsimp only
    rw [if_neg (by omega : ¬ livro.quantidadeDisponivel ≤ 0), hput]
  rw [hr]
  have hemp : insertRep Emprestimo.id s.emprestimos
      ((novoEmprestimo idLivro idAluno dataE dataP).withId s.nextEmprestimo)
      = s.emprestimos ++ [⟨s.nextEmprestimo, idLivro, idAluno, dataE, dataP, none, "ativo"⟩] := by
    rw [insertRep_append_of_lt Emprestimo.id fun x hx => hbe x hx]
    rfl
  refine ⟨rfl, hemp, ?_, ?_, rfl, ?_⟩
  · exact hmem.2 ▸ findById_insertRep_self Livro.id s.livros _
  · intro j hj
    refine findById_insertRep_ne Livro.id _ _ ?_
    show j ≠ livro.id
    have h2 := hmem.2
    omega
  · rw [hemp]
    simp

/-- Witness for C6: checking out the single available book of a
one-book store appends one active loan and decrements the book. -/
theorem registrarEmprestimo_success_witness :
    (registrarEmprestimo ⟨[⟨1, "T", "A", "I", 1, 1⟩], [], [], 2, 1, 1⟩
        (novoEmprestimo 1 7 "2024-01-01" "2024-01-08")).1 = none ∧
    (registrarEmprestimo ⟨[⟨1, "T", "A", "I", 1, 1⟩], [], [], 2, 1, 1⟩
        (novoEmprestimo 1 7 "2024-01-01" "2024-01-08")).2.emprestimos
      = [] ++ [⟨1, 1, 7, "2024-01-01", "2024-01-08", none, "ativo"⟩] ∧
    findById Livro.id
        (registrarEmprestimo ⟨[⟨1, "T", "A", "I", 1, 1⟩], [], [], 2, 1, 1⟩
          (novoEmprestimo 1 7 "2024-01-01" "2024-01-08")).2.livros 1
      = some ⟨1, "T", "A", "I", 1, 0⟩ ∧
    (∀ j, j ≠ 1 →
      findById Livro.id
          (registrarEmprestimo ⟨[⟨1, "T", "A", "I", 1, 1⟩], [], [], 2, 1, 1⟩
            (novoEmprestimo 1 7 "2024-01-01" "2024-01-08")).2.livros j
        = findById Livro.id [⟨1, "T", "A", "I", 1, 1⟩] j) ∧
    (registrarEmprestimo ⟨[⟨1, "T", "A", "I", 1, 1⟩], [], [], 2, 1, 1⟩
        (novoEmprestimo 1 7 "2024-01-01" "2024-01-08")).2.alunos = [] ∧
    (registrarEmprestimo ⟨[⟨1, "T", "A", "I", 1, 1⟩], [], [], 2, 1, 1⟩
        (novoEmprestimo 1 7 "2024-01-01" "2024-01-08")).2.emprestimos.length = 0 + 1 :=
  registrarEmprestimo_success ⟨[⟨1, "T", "A", "I", 1, 1⟩], [], [], 2, 1, 1⟩ 1 7
    "2024-01-01" "2024-01-08" ⟨1, "T", "A", "I", 1, 1⟩
    (by refine ⟨?w1, ?w2, ?w3, ?w4, ?w5, ?w6, ?w7, ?w8⟩ <;>
      simp [SortedBy, UkNodup, livroUk, alunoUk])
    (by decide) (by decide)

/-! ## Claim C5 — return protocol -/

/-- C5: returning an active loan marks it `devolvido` and sets its
return date together, in the same committed transaction; the
referenced book, when still present, gains exactly one available copy,
and every other record is untouched — if the book was deleted the
increment is silently skipped with no error.  Returning a missing or
already-returned loan fails with `InvalidLoanState` and mutates
nothing; in particular a second return of the same loan fails and
changes nothing further. -/
theorem registrarDevolucao_spec (s : DBState) (idEmp : Nat) (dataDev : String)
    (hwf : WF s) :
    (∀ emp, findById Emprestimo.id s.emprestimos idEmp = some emp →
      emp.status ≠ "devolvido" →
      (registrarDevolucao s idEmp dataDev).1 = none ∧
      findById Emprestimo.id (registrarDevolucao s idEmp dataDev).2.emprestimos idEmp
        = some { emp with status := "devolvido", dataDevolucaoReal := some dataDev } ∧
      (∀ j, j ≠ idEmp →
        findById Emprestimo.id (registrarDevolucao s idEmp dataDev).2.emprestimos j
          = findById Emprestimo.id s.emprestimos j) ∧
      (registrarDevolucao s idEmp dataDev).2.alunos = s.alunos ∧
      (∀ livro, findById Livro.id s.livros emp.idLivro = some livro →
        findById Livro.id (registrarDevolucao s idEmp dataDev).2.livros emp.idLivro
          = some { livro with quantidadeDisponivel := livro.quantidadeDisponivel + 1 } ∧
        ∀ j, j ≠ emp.idLivro →
          findById Livro.id (registrarDevolucao s idEmp dataDev).2.livros j
            = findById Livro.id s.livros j) ∧
      (findById Livro.id s.livros emp.idLivro = none →
        (registrarDevolucao s idEmp dataDev).2.livros = s.livros) ∧
      (∀ d', registrarDevolucao (registrarDevolucao s idEmp dataDev).2 idEmp d'
        = (some .invalidLoanState, (registrarDevolucao s idEmp dataDev).2))) ∧
    (findById Emprestimo.id s.emprestimos idEmp = none ∨
        (∃ emp, findById Emprestimo.id s.emprestimos idEmp = some emp ∧
          emp.status = "devolvido") →
      registrarDevolucao s idEmp dataDev = (some .invalidLoanState, s)) := by
  obtain ⟨-, -, -, hul, -, -, -, -⟩ := hwf
  constructor
  · intro emp hfind hstat
    have hmem := findById_mem Emprestimo.id hfind
    have hputEmp : putU Emprestimo.id empUk s.emprestimos
        { emp with status := "devolvido", dataDevolucaoReal := some dataDev }
        = some (insertRep Emprestimo.id s.emprestimos
            { emp with status := "devolvido", dataDevolucaoReal := some dataDev }) :=
      putU_of_uk_none Emprestimo.id empUk rfl
    have hfind' : ∀ t : DBState,
        t.emprestimos = insertRep Emprestimo.id s.emprestimos
          { emp with status := "devolvido", dataDevolucaoReal := some dataDev } →
        findById Emprestimo.id t.emprestimos idEmp
          = some { emp with status := "devolvido", dataDevolucaoReal := some dataDev } := by
      intro t ht
      rw [ht]
      exact hmem.2 ▸ findById_insertRep_self Emprestimo.id s.emprestimos _
    cases hbook : findById Livro.id s.livros emp.idLivro with
    | none =>
      have hr : registrarDevolucao s idEmp dataDev
          = (none,
            { s with
              emprestimos := insertRep Emprestimo.id s.emprestimos
                { emp with status := "devolvido", dataDevolucaoReal := some dataDev } }) := by
        rw [registrarDevolucao, hfind]
        dsimp only
        rw [if_neg hstat, hputEmp]
        dsimp only
        rw [hbook]
      rw [hr]
      refine ⟨rfl, hfind' _ rfl, ?_, rfl, ?_, fun _ => rfl, ?_⟩
      · intro j hj
        refine findById_insertRep_ne Emprestimo.id _ _ ?_
        show j ≠ emp.id
        have h2 := hmem.2
        omega
      · intro livro hl
        exact Option.noConfusion hl
      · intro d'
        rw [registrarDevolucao, hfind' _ rfl]
        dsimp only
        rw [if_pos rfl]
    | some livro =>
      have hlmem := findById_mem Livro.id hbook
      have hputLiv : putU Livro.id livroUk s.livros
          { livro with quantidadeDisponivel := livro.quantidadeDisponivel + 1 }
          = some (insertRep Livro.id s.livros
              { livro with quantidadeDisponivel := livro.quantidadeDisponivel + 1 }) :=
        putU_replace_self Livro.id livroUk hul hlmem.1 rfl rfl
      have hr : registrarDevolucao s idEmp dataDev
          = (none,
            { s with
              emprestimos := insertRep Emprestimo.id s.emprestimos
                { emp with status := "devolvido", dataDevolucaoReal := some dataDev }
              livros := insertRep Livro.id s.livros
                { livro with quantidadeDisponivel := livro.quantidadeDisponivel + 1 } }) := by
        rw [registrarDevolucao, hfind]
        dsimp only
        rw [if_neg hstat, hputEmp]
        dsimp only
        rw [hbook]
        dsimp only
        rw [hputLiv]
      rw [hr]
      refine ⟨rfl, hfind' _ rfl, ?_, rfl, ?_, ?_, ?_⟩
      · intro j hj
        refine findById_insertRep_ne Emprestimo.id _ _ ?_
        show j ≠ emp.id
        have h2 := hmem.2
        omega
      · intro livro' hl'
        have heq : livro = livro' := Option.some_inj.mp hl'
        rw [← heq]
        refine ⟨hlmem.2 ▸ findById_insertRep_self Livro.id s.livros _, ?_⟩
        intro j hj
        refine findById_insertRep_ne Livro.id _ _ ?_
        show j ≠ livro.id
        have h2 := hlmem.2
        omega
      · intro hnone
        exact Option.noConfusion hnone
      · intro d'
        rw [registrarDevolucao, hfind' _ rfl]
        dsimp only
        rw [if_pos rfl]
  · rintro (hnone | ⟨emp, hfind, hstat⟩)
    · rw [registrarDevolucao, hnone]
    · rw [registrarDevolucao, hfind]
      dsimp only
      rw [if_pos hstat]

/-- Witness for C5: returning the single active loan of a one-loan
store marks it returned, re-increments the book, and a second return
fails without further change. -/
theorem registrarDevolucao_spec_witness :
    ((registrarDevolucao ⟨[⟨1, "T", "A", "I", 1, 0⟩], [],
        [⟨1, 1, 7, "2024-01-01", "2024-01-08", none, "ativo"⟩], 2, 1, 2⟩ 1 "2024-01-05").1 = none ∧
      findById Emprestimo.id
          (registrarDevolucao ⟨[⟨1, "T", "A", "I", 1, 0⟩], [],
            [⟨1, 1, 7, "2024-01-01", "2024-01-08", none, "ativo"⟩], 2, 1, 2⟩ 1
            "2024-01-05").2.emprestimos 1
        = some ⟨1, 1, 7, "2024-01-01", "2024-01-08", some "2024-01-05", "devolvido"⟩ ∧
      findById Livro.id
          (registrarDevolucao ⟨[⟨1, "T", "A", "I", 1, 0⟩], [],
            [⟨1, 1, 7, "2024-01-01", "2024-01-08", none, "ativo"⟩], 2, 1, 2⟩ 1
            "2024-01-05").2.livros 1
        = some ⟨1, "T", "A", "I", 1, 1⟩) ∧
    (∀ d', registrarDevolucao
        (registrarDevolucao ⟨[⟨1, "T", "A", "I", 1, 0⟩], [],
          [⟨1, 1, 7, "2024-01-01", "2024-01-08", none, "ativo"⟩], 2, 1, 2⟩ 1 "2024-01-05").2
        1 d'
      = (some .invalidLoanState,
        (registrarDevolucao ⟨[⟨1, "T", "A", "I", 1, 0⟩], [],
          [⟨1, 1, 7, "2024-01-01", "2024-01-08", none, "ativo"⟩], 2, 1, 2⟩ 1 "2024-01-05").2)) := by
  have h := (registrarDevolucao_spec
    ⟨[⟨1, "T", "A", "I", 1, 0⟩], [], [⟨1, 1, 7, "2024-01-01", "2024-01-08", none, "ativo"⟩], 2, 1, 2⟩
    1 "2024-01-05"
    (by refine ⟨?w1, ?w2, ?w3, ?w4, ?w5, ?w6, ?w7, ?w8⟩ <;>
      simp [SortedBy, UkNodup, livroUk, alunoUk])).1
    ⟨1, 1, 7, "2024-01-01", "2024-01-08", none, "ativo"⟩ (by decide) (by decide)
  refine ⟨⟨h.1, h.2.1, ?_⟩, fun d' => h.2.2.2.2.2.2 d'⟩
  exact (h.2.2.2.2.1 ⟨1, "T", "A", "I", 1, 0⟩ (by decide)).1

/-! ## Claim C7 — export / validate / import round trip -/

theorem jsonArr_length_ofList (xs : List Json) :
    (JsonArr.ofList xs).length = xs.length := by
  induction xs with
  | nil => rfl
  | cons h t ih => simp [JsonArr.ofList, JsonArr.length, ih]

theorem jsonArr_toList_ofList (xs : List Json) :
    (JsonArr.ofList xs).toList = xs := by
  induction xs with
  | nil => rfl
  | cons h t ih => simp [JsonArr.ofList, JsonArr.toList, ih]

theorem hexAux_ne_nil (n : Nat) : hexAux (n + 1) n ≠ [] := by
  rw [hexAux]
  split <;> simp

theorem gerarChecksumSimples_ne_empty (j : Json) : gerarChecksumSimples j ≠ "" := by
  rw [gerarChecksumSimples, hexString]
  intro h
  exact hexAux_ne_nil _ (congrArg String.data h)

theorem ukNodup_empUk (l : List Emprestimo) : UkNodup empUk l := by
  induction l with
  | nil => exact .nil
  | cons h t ih =>
    exact .cons (fun y _ u hu => by cases hu) ih

theorem livro_ofJson_toJson (x : Livro) : Livro.ofJson (Livro.toJson x) = some x := by
  simp [Livro.toJson, Livro.ofJson, JsonObj.lookup]

theorem aluno_ofJson_toJson (x : Aluno) : Aluno.ofJson (Aluno.toJson x) = some x := by
  simp [Aluno.toJson, Aluno.ofJson, JsonObj.lookup]

theorem emprestimo_ofJson_toJson (x : Emprestimo) :
    Emprestimo.ofJson (Emprestimo.toJson x) = some x := by
  obtain ⟨i, il, ia, de, dp, dr, st⟩ := x
  cases dr <;> simp [Emprestimo.toJson, Emprestimo.ofJson, JsonObj.lookup]

theorem decodeList_map {R : Type} (enc : R → Json) (dec : Json → Option R)
    (hround : ∀ x, dec (enc x) = some x) (l : List R) :
    decodeList dec (l.map enc) = some l := by
  induction l with
  | nil => rfl
  | cons h t ih =>
    simp [decodeList, hround, ih]

theorem validarEstrutura_livros (l : List Livro) :
    validarEstrutura (jsonArrOf Livro.toJson l)
      ["id", "titulo", "autor", "isbn", "quantidadeTotal", "quantidadeDisponivel"] = none := by
  induction l with
  | nil => rfl
  | cons x t ih =>
    have hfind : (List.find? (fun c => ((JsonObj.cons "id" (.num x.id)
        (.cons "titulo" (.str x.titulo) (.cons "autor" (.str x.autor)
          (.cons "isbn" (.str x.isbn) (.cons "quantidadeTotal" (.num x.quantidadeTotal)
            (.cons "quantidadeDisponivel" (.num x.quantidadeDisponivel) .nil)))))).lookup c).isNone)
        ["id", "titulo", "autor", "isbn", "quantidadeTotal", "quantidadeDisponivel"]) = none := by
      simp [List.find?, JsonObj.lookup]
    simp only [jsonArrOf, List.map_cons, JsonArr.ofList, validarEstrutura, Livro.toJson, hfind]
    exact ih

theorem validarEstrutura_alunos (l : List Aluno) :
    validarEstrutura (jsonArrOf Aluno.toJson l) ["id", "nome", "matricula", "turma"] = none := by
  induction l with
  | nil => rfl
  | cons x t ih =>
    have hfind : (List.find? (fun c => ((JsonObj.cons "id" (.num x.id)
        (.cons "nome" (.str x.nome) (.cons "matricula" (.str x.matricula)
          (.cons "turma" (.str x.turma) .nil)))).lookup c).isNone)
        ["id", "nome", "matricula", "turma"]) = none := by
      simp [List.find?, JsonObj.lookup]
    simp only [jsonArrOf, List.map_cons, JsonArr.ofList, validarEstrutura, Aluno.toJson, hfind]
    exact ih

theorem validarEstrutura_emprestimos (l : List Emprestimo) :
    validarEstrutura (jsonArrOf Emprestimo.toJson l)
      ["id", "idLivro", "idAluno", "dataEmprestimo", "dataPrevistaDevolucao", "status"]
      = none := by
  induction l with
  | nil => rfl
  | cons x t ih =>
    have hfind : (List.find? (fun c => ((JsonObj.cons "id" (.num x.id)
        (.cons "idLivro" (.num x.idLivro) (.cons "idAluno" (.num x.idAluno)
          (.cons "dataEmprestimo" (.str x.dataEmprestimo)
            (.cons "dataPrevistaDevolucao" (.str x.dataPrevistaDevolucao)
              (.cons "dataDevolucaoReal"
                (match x.dataDevolucaoReal with | none => .null | some d => .str d)
                (.cons "status" (.str x.status) .nil))))))).lookup c).isNone)
        ["id", "idLivro", "idAluno", "dataEmprestimo", "dataPrevistaDevolucao", "status"]) = none := by
      simp [List.find?, JsonObj.lookup]
    simp only [jsonArrOf, List.map_cons, JsonArr.ofList, validarEstrutura, Emprestimo.toJson, hfind]
    exact ih

theorem jsonArrOf_length {R : Type} (f : R → Json) (l : List R) :
    (jsonArrOf f l).length = l.length := by
  rw [jsonArrOf, jsonArr_length_ofList, List.length_map]

theorem validar_export (s : DBState) (ts : String) (hts : ts ≠ "") :
    validarBackup (exportarDados s ts) = none := by
  simp only [exportarDados, payloadSemChecksum, exportAllData, JsonObj.append]
  rw [validarBackup]
  simp +decide [JsonObj.lookup, jsTruthy, hts, JsonObj.removeKey, jsonArrOf_length,
    gerarChecksumSimples_ne_empty, validarEstrutura_livros, validarEstrutura_alunos,
    validarEstrutura_emprestimos]

theorem decode_export (s : DBState) (ts : String) :
    decodeBackup (exportarDados s ts) = some (exportAllData s) := by
  simp only [exportarDados, payloadSemChecksum, exportAllData, JsonObj.append]
  rw [decodeBackup]
  simp +decide [JsonObj.lookup, jsonArrOf, jsonArr_toList_ofList,
    decodeList_map _ _ livro_ofJson_toJson, decodeList_map _ _ aluno_ofJson_toJson,
    decodeList_map _ _ emprestimo_ofJson_toJson]

/-- C7: the full backup round trip.  Exporting a well-formed store
state with `exportarDados` yields a payload that passes `validarBackup`
entirely, decodes back to exactly the exported collections, and feeding
it to `importAllData` (from any pre-existing state) commits without
error a store whose three collections are element-wise equal to the
original. -/
theorem exportarDados_roundtrip (s : DBState) (ts : String)
    (hwf : WF s) (hts : ts ≠ "") :
    validarBackup (exportarDados s ts) = none ∧
    decodeBackup (exportarDados s ts) = some (exportAllData s) ∧
    ∀ s' : DBState,
      (importAllData s' (exportAllData s)).1 = none ∧
      (importAllData s' (exportAllData s)).2.livros = s.livros ∧
      (importAllData s' (exportAllData s)).2.alunos = s.alunos ∧
      (importAllData s' (exportAllData s)).2.emprestimos = s.emprestimos := by
  obtain ⟨hsl, hsa, hse, hul, hua, -, -, -⟩ := hwf
  refine ⟨validar_export s ts hts, decode_export s ts, fun s' => ?_⟩
  have hL := @foldPut_self Livro Livro.id livroUk [] s.livros
    (by simpa using hsl) (by simpa using hul)
  have hA := @foldPut_self Aluno Aluno.id alunoUk [] s.alunos
    (by simpa using hsa) (by simpa using hua)
  have hE := @foldPut_self Emprestimo Emprestimo.id empUk [] s.emprestimos
    (by simpa using hse) (by simpa using ukNodup_empUk s.emprestimos)
  rw [List.nil_append] at hL hA hE
  have himp : importAllData s' (exportAllData s)
      = (none, ⟨s.livros, s.alunos, s.emprestimos,
          bumpNext s'.nextLivro (s.livros.map Livro.id),
          bumpNext s'.nextAluno (s.alunos.map Aluno.id),
          bumpNext s'.nextEmprestimo (s.emprestimos.map Emprestimo.id)⟩) := by
    rw [importAllData]
    dsimp only [exportAllData]
    rw [hL, hA, hE]
  rw [himp]
  exact ⟨rfl, rfl, rfl, rfl⟩

/-- Witness for C7: a concrete one-record-per-collection store round
trips through export, validation and import. -/
theorem exportarDados_roundtrip_witness :
    validarBackup (exportarDados
        ⟨[⟨1, "Livro", "Autor", "123", 3, 3⟩], [⟨1, "Aluno", "001", "A"⟩],
          [⟨1, 1, 1, "2024-01-01", "2024-01-08", none, "ativo"⟩], 2, 2, 2⟩
        "2024-02-03T04:05:06.000Z") = none ∧
    decodeBackup (exportarDados
        ⟨[⟨1, "Livro", "Autor", "123", 3, 3⟩], [⟨1, "Aluno", "001", "A"⟩],
          [⟨1, 1, 1, "2024-01-01", "2024-01-08", none, "ativo"⟩], 2, 2, 2⟩
        "2024-02-03T04:05:06.000Z")
      = some (exportAllData
        ⟨[⟨1, "Livro", "Autor", "123", 3, 3⟩], [⟨1, "Aluno", "001", "A"⟩],
          [⟨1, 1, 1, "2024-01-01", "2024-01-08", none, "ativo"⟩], 2, 2, 2⟩) ∧
    ∀ s' : DBState,
      (importAllData s' (exportAllData
        ⟨[⟨1, "Livro", "Autor", "123", 3, 3⟩], [⟨1, "Aluno", "001", "A"⟩],
          [⟨1, 1, 1, "2024-01-01", "2024-01-08", none, "ativo"⟩], 2, 2, 2⟩)).1 = none ∧
      (importAllData s' (exportAllData
        ⟨[⟨1, "Livro", "Autor", "123", 3, 3⟩], [⟨1, "Aluno", "001", "A"⟩],
          [⟨1, 1, 1, "2024-01-01", "2024-01-08", none, "ativo"⟩], 2, 2, 2⟩)).2.livros
        = [⟨1, "Livro", "Autor", "123", 3, 3⟩] ∧
      (importAllData s' (exportAllData
        ⟨[⟨1, "Livro", "Autor", "123", 3, 3⟩], [⟨1, "Aluno", "001", "A"⟩],
          [⟨1, 1, 1, "2024-01-01", "2024-01-08", none, "ativo"⟩], 2, 2, 2⟩)).2.alunos
        = [⟨1, "Aluno", "001", "A"⟩] ∧
      (importAllData s' (exportAllData
        ⟨[⟨1, "Livro", "Autor", "123", 3, 3⟩], [⟨1, "Aluno", "001", "A"⟩],
          [⟨1, 1, 1, "2024-01-01", "2024-01-08", none, "ativo"⟩], 2, 2, 2⟩)).2.emprestimos
        = [⟨1, 1, 1, "2024-01-01", "2024-01-08", none, "ativo"⟩] :=
  exportarDados_roundtrip
    ⟨[⟨1, "Livro", "Autor", "123", 3, 3⟩], [⟨1, "Aluno", "001", "A"⟩],
      [⟨1, 1, 1, "2024-01-01", "2024-01-08", none, "ativo"⟩], 2, 2, 2⟩
    "2024-02-03T04:05:06.000Z"
    (by refine ⟨?w1, ?w2, ?w3, ?w4, ?w5, ?w6, ?w7, ?w8⟩ <;>
      simp [SortedBy, UkNodup, livroUk, alunoUk])
    (by decide)

/-- Field lookups on an export-shaped payload object. -/
theorem payload_lookup_versao (v ts : String) (d : BackupData) (c : Json) :
    ((payloadSemChecksum v ts d).append (.cons "checksum" c .nil)).lookup "versao"
      = some (.str v) := rfl

theorem payload_lookup_data (v ts : String) (d : BackupData) (c : Json) :
    ((payloadSemChecksum v ts d).append (.cons "checksum" c .nil)).lookup "dataExportacao"
      = some (.str ts) := rfl

theorem payload_lookup_total (v ts : String) (d : BackupData) (c : Json) :
    ((payloadSemChecksum v ts d).append (.cons "checksum" c .nil)).lookup "totalRegistros"
      = some (.num (d.livros.length + d.alunos.length + d.emprestimos.length)) := rfl

theorem payload_lookup_livros (v ts : String) (d : BackupData) (c : Json) :
    ((payloadSemChecksum v ts d).append (.cons "checksum" c .nil)).lookup "livros"
      = some (.arr (jsonArrOf Livro.toJson d.livros)) := rfl

theorem payload_lookup_alunos (v ts : String) (d : BackupData) (c : Json) :
    ((payloadSemChecksum v ts d).append (.cons "checksum" c .nil)).lookup "alunos"
      = some (.arr (jsonArrOf Aluno.toJson d.alunos)) := rfl

theorem payload_lookup_emprestimos (v ts : String) (d : BackupData) (c : Json) :
    ((payloadSemChecksum v ts d).append (.cons "checksum" c .nil)).lookup "emprestimos"
      = some (.arr (jsonArrOf Emprestimo.toJson d.emprestimos)) := rfl

theorem payload_lookup_checksum (v ts : String) (d : BackupData) (c : Json) :
    ((payloadSemChecksum v ts d).append (.cons "checksum" c .nil)).lookup "checksum"
      = some c := rfl

theorem payload_removeKey_checksum (v ts : String) (d : BackupData) (c : Json) :
    ((payloadSemChecksum v ts d).append (.cons "checksum" c .nil)).removeKey "checksum"
      = payloadSemChecksum v ts d := rfl

/-- An export-shaped payload with truthy root fields passes every
check of `validarBackup` except possibly the checksum comparison, which
decides the outcome. -/
theorem validarBackup_payload (v ts : String) (d : BackupData) (c : String)
    (hv : v ≠ "") (hts : ts ≠ "") (hc : c ≠ "") :
    validarBackup (.obj ((payloadSemChecksum v ts d).append (.cons "checksum" (.str c) .nil)))
      = if c = gerarChecksumSimples (.obj (payloadSemChecksum v ts d)) then none
        else some .checksumMismatch := by
  rw [validarBackup]
  simp +decide [payload_lookup_versao, payload_lookup_data, payload_lookup_total,
    payload_lookup_livros, payload_lookup_alunos, payload_lookup_emprestimos,
    payload_lookup_checksum, payload_removeKey_checksum,
    jsTruthy, hv, hts, hc, jsonArrOf_length, validarEstrutura_livros,
    validarEstrutura_alunos, validarEstrutura_emprestimos]

/-! ## Claim C2 — tamper detection by the additive checksum -/

theorem scs_toJson_titulo (x : Livro) (t : String) :
    scs (jChars (Livro.toJson { x with titulo := t })) + scs (strLit x.titulo)
      = scs (jChars (Livro.toJson x)) + scs (strLit t) := by
  simp [Livro.toJson, jChars, jCharsObj, jCharsObjRest, scs_append, scs_cons]
  omega

theorem scs_payload_first_livro (v ts : String) (x y : Livro)
    (rest : List Livro) (al : List Aluno) (em : List Emprestimo) :
    scs (jChars (.obj (payloadSemChecksum v ts ⟨x :: rest, al, em⟩)))
        + scs (jChars (Livro.toJson y))
      = scs (jChars (.obj (payloadSemChecksum v ts ⟨y :: rest, al, em⟩)))
        + scs (jChars (Livro.toJson x)) := by
  simp [payloadSemChecksum, jChars, jCharsObj, jCharsObjRest, jCharsArr, jCharsArrRest,
    jsonArrOf, JsonArr.ofList, scs_append, scs_cons]
  omega

set_option maxRecDepth 100000 in
/-- Counterexample to C2 as stated: the checksum is an order-blind sum
of character codes, so swapping the two characters of the first book's
title ("ab" → "ba") after the checksum was computed is a single-field
modification that `validarBackup` does NOT fail on — validation passes
entirely rather than failing with `ChecksumMismatch`. -/
theorem validarBackup_misses_permuted_field_edit :
    validarBackup (.obj ((payloadSemChecksum "1.0" "2024-01-02T00:00:00.000Z"
        ⟨[⟨1, "ba", "A", "I", 1, 1⟩], [], []⟩).append
      (.cons "checksum"
        (.str (gerarChecksumSimples (.obj (payloadSemChecksum "1.0" "2024-01-02T00:00:00.000Z"
          ⟨[⟨1, "ab", "A", "I", 1, 1⟩], [], []⟩))))
        .nil)))
      = none := by decide

/-- C2 (amended): the fingerprint is an order-blind sum of the
character codes of the whitespace-stripped serialization, so for the
covered single-field edit — replacing the first book's `titulo` of an
export-shaped payload after the checksum was computed — `validarBackup`
fails with `checksumMismatch` exactly when the new value changes that
character-code sum, and passes entirely when the sum is preserved
(e.g. when the edit permutes the characters of the field value — see
the counterexample). -/
theorem validarBackup_titulo_edit_iff_sum_change (ts : String) (livro : Livro)
    (novo : String) (rest : List Livro) (al : List Aluno) (em : List Emprestimo)
    (hts : ts ≠ "") :
    validarBackup (.obj ((payloadSemChecksum "1.0" ts
        ⟨{ livro with titulo := novo } :: rest, al, em⟩).append
      (.cons "checksum"
        (.str (gerarChecksumSimples (.obj (payloadSemChecksum "1.0" ts
          ⟨livro :: rest, al, em⟩))))
        .nil)))
      = if scs (strLit novo) = scs (strLit livro.titulo) then none
        else some .checksumMismatch := by
  have h1 := scs_payload_first_livro "1.0" ts livro { livro with titulo := novo } rest al em
  have h2 := scs_toJson_titulo livro novo
  have hiff : gerarChecksumSimples (.obj (payloadSemChecksum "1.0" ts ⟨livro :: rest, al, em⟩))
      = gerarChecksumSimples (.obj (payloadSemChecksum "1.0" ts
          ⟨{ livro with titulo := novo } :: rest, al, em⟩))
      ↔ scs (strLit novo) = scs (strLit livro.titulo) := by
    rw [gerarChecksumSimples_eq_scs, gerarChecksumSimples_eq_scs]
    constructor
    · intro heq
      have hsums := hexString_injective heq
      omega
    · intro heq
      have hsums : scs (jChars (.obj (payloadSemChecksum "1.0" ts ⟨livro :: rest, al, em⟩)))
          = scs (jChars (.obj (payloadSemChecksum "1.0" ts
              ⟨{ livro with titulo := novo } :: rest, al, em⟩))) := by omega
      rw [hsums]
  rw [validarBackup_payload "1.0" ts _ _ (by decide) hts (gerarChecksumSimples_ne_empty _)]
  by_cases hs : scs (strLit novo) = scs (strLit livro.titulo)
  · rw [if_pos hs, if_pos (hiff.mpr hs)]
  · rw [if_neg hs, if_neg fun h => hs (hiff.mp h)]

/-- Witness for the amended C2, exercising both directions: replacing
the title "ab" by "cd" changes the character sum and is rejected with
a checksum mismatch, while the sum-preserving replacement "ab" → "ba"
passes validation. -/
theorem validarBackup_titulo_edit_iff_sum_change_witness :
    (validarBackup (.obj ((payloadSemChecksum "1.0" "2024-01-02T00:00:00.000Z"
        ⟨{ (⟨1, "ab", "A", "I", 1, 1⟩ : Livro) with titulo := "cd" } :: [], [], []⟩).append
      (.cons "checksum"
        (.str (gerarChecksumSimples (.obj (payloadSemChecksum "1.0" "2024-01-02T00:00:00.000Z"
          ⟨[⟨1, "ab", "A", "I", 1, 1⟩], [], []⟩))))
        .nil)))
      = some .checksumMismatch) ∧
    (validarBackup (.obj ((payloadSemChecksum "1.0" "2024-01-02T00:00:00.000Z"
        ⟨{ (⟨1, "ab", "A", "I", 1, 1⟩ : Livro) with titulo := "ba" } :: [], [], []⟩).append
      (.cons "checksum"
        (.str (gerarChecksumSimples (.obj (payloadSemChecksum "1.0" "2024-01-02T00:00:00.000Z"
          ⟨[⟨1, "ab", "A", "I", 1, 1⟩], [], []⟩))))
        .nil)))
      = none) :=
  ⟨(validarBackup_titulo_edit_iff_sum_change "2024-01-02T00:00:00.000Z"
      ⟨1, "ab", "A", "I", 1, 1⟩ "cd" [] [] [] (by decide)).trans (by decide),
    (validarBackup_titulo_edit_iff_sum_change "2024-01-02T00:00:00.000Z"
      ⟨1, "ab", "A", "I", 1, 1⟩ "ba" [] [] [] (by decide)).trans (by decide)⟩

/-! ## Claim C9 — determinism of the fingerprint

`gerarChecksumSimples` is a pure function, so repeated calls on the
same payload trivially agree; the substantive content of the claim is
that payloads equal up to object field order and whitespace inside
string values also agree.  "Equal up to field order and whitespace" is
formalized by a computable normal form `normJ` that sorts every
object's fields by key and removes the whitespace characters that
survive serialization unescaped; two payloads with the same normal
form receive the same fingerprint. -/

/-- Whitespace that reaches the serialized text unescaped: `/\s/`
characters at or above `0x20` (control whitespace such as tab or
newline is escaped by `JSON.stringify` into non-whitespace sequences
and therefore contributes to the checksum). -/
def strippable (c : Char) : Bool :=
  isJsWs c && decide (32 ≤ c.toNat)

/-- Remove the whitespace of a string value that the checksum ignores. -/
def normStr (s : String) : String :=
  ⟨s.data.filter (fun c => !strippable c)⟩

/-- Code-point-wise comparison of key characters (an arbitrary but
kernel-computable total preorder used only to pick a canonical field
order). -/
def charListLe : List Char → List Char → Bool
  | x :: xs, y :: ys =>
    if x.toNat < y.toNat then true
    else if y.toNat < x.toNat then false
    else charListLe xs ys
  | [], _ => true
  | _ :: _, [] => false

/-- Sort an object's fields by key (an arbitrary canonical order). -/
def sortFields (o : JsonObj) : JsonObj :=
  JsonObj.ofList
    (List.insertionSort (fun a b => charListLe a.1.data b.1.data = true) o.toList)

mutual

/-- Normal form of a JSON value under field reordering and ignorable
whitespace. -/
def normJ : Json → Json
  | .null => .null
  | .bool b => .bool b
  | .num n => .num n
  | .str s => .str (normStr s)
  | .arr a => .arr (normArr a)
  | .obj o => .obj (sortFields (normObj o))
termination_by structural j => j

/-- Elementwise normal form of a JSON array. -/
def normArr : JsonArr → JsonArr
  | .nil => .nil
  | .cons h t => .cons (normJ h) (normArr t)
termination_by structural a => a

/-- Valuewise normal form of an object's fields. -/
def normObj : JsonObj → JsonObj
  | .nil => .nil
  | .cons k v t => .cons k (normJ v) (normObj t)
termination_by structural o => o

end

theorem escChar_strippable {c : Char} (h : strippable c = true) :
    escChar c = [c] ∧ scs [c] = 0 := by
  rw [strippable, Bool.and_eq_true] at h
  obtain ⟨h1, h2⟩ := h
  rw [isJsWs] at h1
  simp only [List.mem_cons, decide_eq_true_eq, List.not_mem_nil, or_false] at h1
  revert h2
  rcases h1 with rfl | rfl | rfl | rfl | rfl | rfl | rfl | rfl | rfl | rfl | rfl | rfl |
    rfl | rfl | rfl | rfl | rfl | rfl | rfl | rfl | rfl | rfl | rfl | rfl | rfl <;> decide

/-- Splitting a head character off a checksum segment. -/
theorem scs_cons_append (c : Char) (l : List Char) : scs (c :: l) = scs [c] + scs l := by
  rw [show (c :: l) = [c] ++ l from rfl, scs_append]

theorem scs_escStr_norm (s : String) : scs (escStr (normStr s)) = scs (escStr s) := by
  rw [normStr, escStr, escStr]
  show scs ((s.data.filter fun c => !strippable c).flatMap escChar) = _
  induction s.data with
  | nil => rfl
  | cons c t ih =>
    rw [List.filter_cons]
    by_cases h : strippable c = true
    · rw [if_neg (by simp [h])]
      rw [List.flatMap_cons, scs_append, (escChar_strippable h).1, (escChar_strippable h).2,
        ih, Nat.zero_add]
    · rw [if_pos (by simp at h ⊢; exact h)]
      rw [List.flatMap_cons, List.flatMap_cons, scs_append, scs_append, ih]

/-- Per-field contribution to the checksum: quoted key, colon, value. -/
def entryScs (f : String × Json) : Nat :=
  scs (strLit f.1) + scs [':'] + scs (jChars f.2)

theorem jsonObj_ofList_toList (o : JsonObj) : JsonObj.ofList o.toList = o := by
  cases o with
  | nil => rfl
  | cons k v t => rw [JsonObj.toList, JsonObj.ofList, jsonObj_ofList_toList t]
termination_by structural o

theorem restScs_formula (l : List (String × Json)) :
    scs (jCharsObjRest (JsonObj.ofList l))
      = (l.map entryScs).sum + scs [','] * l.length := by
  induction l with
  | nil => simp [JsonObj.ofList, jCharsObjRest, scs, stripWs, charSum]
  | cons f t ih =>
    obtain ⟨k, v⟩ := f
    rw [JsonObj.ofList, jCharsObjRest]
    rw [show ((',' :: strLit k) ++ ':' :: jChars v ++ jCharsObjRest (JsonObj.ofList t))
        = ([','] ++ strLit k) ++ ([':'] ++ jChars v) ++ jCharsObjRest (JsonObj.ofList t)
      by simp]
    rw [scs_append, scs_append, scs_append, scs_append, ih]
    simp only [List.map_cons, List.sum_cons, List.length_cons, entryScs]
    ring

theorem objScs_formula (l : List (String × Json)) :
    scs (jCharsObj (JsonObj.ofList l))
      = (l.map entryScs).sum + scs [','] * (l.length - 1) := by
  cases l with
  | nil => simp [JsonObj.ofList, jCharsObj, scs, stripWs, charSum]
  | cons f t =>
    obtain ⟨k, v⟩ := f
    rw [JsonObj.ofList, jCharsObj]
    rw [show ((strLit k) ++ ':' :: jChars v ++ jCharsObjRest (JsonObj.ofList t))
        = strLit k ++ ([':'] ++ jChars v) ++ jCharsObjRest (JsonObj.ofList t) by simp]
    rw [scs_append, scs_append, scs_append, restScs_formula]
    simp only [List.map_cons, List.sum_cons, List.length_cons, entryScs,
      Nat.add_sub_cancel]
    ring

theorem scs_jCharsObj_sortFields (o : JsonObj) :
    scs (jCharsObj (sortFields o)) = scs (jCharsObj o) := by
  have hperm := List.perm_insertionSort
    (fun a b : String × Json => charListLe a.1.data b.1.data = true) o.toList
  rw [sortFields, objScs_formula, hperm.length_eq, (hperm.map entryScs).sum_eq,
    ← objScs_formula, jsonObj_ofList_toList]

mutual

theorem scs_normJ (j : Json) : scs (jChars (normJ j)) = scs (jChars j) := by
  cases j with
  | null => rfl
  | bool b => rfl
  | num n => rfl
  | str s =>
    show scs (strLit (normStr s)) = scs (strLit s)
    rw [strLit, strLit]
    simp +decide only [scs_append, scs_cons, scs_escStr_norm]
  | arr a =>
    show scs (('[' :: jCharsArr (normArr a)) ++ [']'])
      = scs (('[' :: jCharsArr a) ++ [']'])
    simp +decide only [scs_append, scs_cons, scs_normArr a]
  | obj o =>
    show scs (('{' :: jCharsObj (sortFields (normObj o))) ++ ['}'])
      = scs (('{' :: jCharsObj o) ++ ['}'])
    simp +decide only [scs_append, scs_cons, scs_jCharsObj_sortFields, scs_normObj o]
termination_by structural j

theorem scs_normArr (a : JsonArr) : scs (jCharsArr (normArr a)) = scs (jCharsArr a) := by
  cases a with
  | nil => rfl
  | cons h t =>
    show scs (jChars (normJ h) ++ jCharsArrRest (normArr t))
      = scs (jChars h ++ jCharsArrRest t)
    rw [scs_append, scs_append, scs_normJ h, scs_normArrRest t]
termination_by structural a

theorem scs_normArrRest (a : JsonArr) :
    scs (jCharsArrRest (normArr a)) = scs (jCharsArrRest a) := by
  cases a with
  | nil => rfl
  | cons h t =>
    show scs ((',' :: jChars (normJ h)) ++ jCharsArrRest (normArr t))
      = scs ((',' :: jChars h) ++ jCharsArrRest t)
    simp +decide only [scs_append, scs_cons, scs_normJ h, scs_normArrRest t]
termination_by structural a

theorem scs_normObj (o : JsonObj) : scs (jCharsObj (normObj o)) = scs (jCharsObj o) := by
  cases o with
  | nil => rfl
  | cons k v t =>
    show scs (strLit k ++ ':' :: jChars (normJ v) ++ jCharsObjRest (normObj t))
      = scs (strLit k ++ ':' :: jChars v ++ jCharsObjRest t)
    simp +decide only [scs_append, scs_cons, scs_normJ v, scs_normObjRest t]
termination_by structural o

theorem scs_normObjRest (o : JsonObj) :
    scs (jCharsObjRest (normObj o)) = scs (jCharsObjRest o) := by
  cases o with
  | nil => rfl
  | cons k v t =>
    show scs (',' :: strLit k ++ ':' :: jChars (normJ v) ++ jCharsObjRest (normObj t))
      = scs (',' :: strLit k ++ ':' :: jChars v ++ jCharsObjRest t)
    simp +decide only [scs_append, scs_cons, scs_normJ v, scs_normObjRest t]
termination_by structural o

end

/-- C9: `gerarChecksumSimples` is deterministic.  It is a pure
function of its argument — repeated calls on the same payload are the
reflexive instance — and any two payloads that agree up to object
field order and up to ignorable whitespace inside string values (same
`normJ` normal form) receive the identical hexadecimal fingerprint,
because the character-code sum is blind to both. -/
theorem gerarChecksumSimples_deterministic (p q : Json) (h : normJ p = normJ q) :
    gerarChecksumSimples p = gerarChecksumSimples q := by
  rw [gerarChecksumSimples_eq_scs, gerarChecksumSimples_eq_scs,
    ← scs_normJ p, ← scs_normJ q, h]

/-- Witness for C9: two payloads differing in field order and in a
space inside a string value hash identically. -/
theorem gerarChecksumSimples_deterministic_witness :
    gerarChecksumSimples (.obj (.cons "a" (.num 1) (.cons "b" (.str "x y") .nil)))
      = gerarChecksumSimples (.obj (.cons "b" (.str "xy") (.cons "a" (.num 1) .nil))) :=
  gerarChecksumSimples_deterministic _ _ (by decide)

/-! ## Claim C1 — the stock invariant -/

/-- Number of active loans referencing book `bid`. -/
def activeCount (emps : List Emprestimo) (bid : Nat) : Nat :=
  emps.countP (fun e => decide (e.idLivro = bid) && decide (e.status = "ativo"))

/-- The strengthened stock invariant: besides store well-formedness,
every book's available copies are non-negative and differ from its
total copies by exactly the number of active loans referencing it;
loan statuses are the two legal ones and active loans reference only
key values already handed out by the book generator. -/
def Inv (s : DBState) : Prop :=
  WF s ∧
    (∀ b ∈ s.livros, 0 ≤ b.quantidadeDisponivel ∧
      b.quantidadeDisponivel + (activeCount s.emprestimos b.id : Int) = b.quantidadeTotal) ∧
    (∀ e ∈ s.emprestimos, e.status = "ativo" ∨ e.status = "devolvido") ∧
    (∀ e ∈ s.emprestimos, e.status = "ativo" → e.idLivro < s.nextLivro)

theorem putU_some_no_conflict {R : Type} (idOf : R → Nat) (ukOf : R → Option String)
    {s : List R} {r : R} {t : List R} (h : putU idOf ukOf s r = some t) :
    ∀ x ∈ s, idOf x ≠ idOf r → ∀ u, ukOf r = some u → ukOf x ≠ some u := by
  rw [putU] at h
  split at h
  · cases h
  · intro x hx hne u hru hxu
    rename_i hc
    rw [List.any_eq_true] at hc
    exact hc ⟨x, hx, by simp [hne, Option.isSome_iff_exists, hru, hxu.trans hru.symm]⟩

/-- `registrarEmprestimo`, called on the loan record the UI handler
builds, preserves the stock invariant. -/
theorem inv_registrarEmprestimo (s : DBState) (idLivro idAluno : Nat)
    (dataE dataP : String) (h : Inv s) :
    Inv (registrarEmprestimo s (novoEmprestimo idLivro idAluno dataE dataP)).2 := by
  obtain ⟨⟨hsl, hsa, hse, hul, hua, hbl, hba, hbe⟩, hstock, hstatus, hrefs⟩ := h
  cases hfind : findById Livro.id s.livros idLivro with
  | none =>
    rw [registrarEmprestimo]
    dsimp only [novoEmprestimo]
    rw [hfind]
    exact ⟨⟨hsl, hsa, hse, hul, hua, hbl, hba, hbe⟩, hstock, hstatus, hrefs⟩
  | some livro =>
    by_cases hq : livro.quantidadeDisponivel ≤ 0
    · rw [registrarEmprestimo]
      dsimp only [novoEmprestimo]
      rw [hfind]
      dsimp only
      rw [if_pos hq]
      exact ⟨⟨hsl, hsa, hse, hul, hua, hbl, hba, hbe⟩, hstock, hstatus, hrefs⟩
    · have hmem := findById_mem Livro.id hfind
      cases hput : putU Livro.id livroUk s.livros
          { livro with quantidadeDisponivel := livro.quantidadeDisponivel - 1 } with
      | none =>
        rw [registrarEmprestimo]
        dsimp only [novoEmprestimo]
        rw [hfind]
        dsimp only
        rw [if_neg hq, hput]
        exact ⟨⟨hsl, hsa, hse, hul, hua, hbl, hba, hbe⟩, hstock, hstatus, hrefs⟩
      | some livros' =>
        have hr : registrarEmprestimo s (novoEmprestimo idLivro idAluno dataE dataP)
            = (none,
              { s with
                livros := livros'
                emprestimos := insertRep Emprestimo.id s.emprestimos
                  ((novoEmprestimo idLivro idAluno dataE dataP).withId s.nextEmprestimo)
                nextEmprestimo := s.nextEmprestimo + 1 }) := by
          rw [registrarEmprestimo]
          dsimp only [novoEmprestimo]
          rw [hfind]
          dsimp only
          rw [if_neg hq, hput]
        rw [hr]
        dsimp only
        have hlivros' := putU_some_eq Livro.id livroUk hput
        subst hlivros'
        have hnewloan : (novoEmprestimo idLivro idAluno dataE dataP).withId s.nextEmprestimo
            = ⟨s.nextEmprestimo, idLivro, idAluno, dataE, dataP, none, "ativo"⟩ := rfl
        have hnotin : findById Emprestimo.id s.emprestimos s.nextEmprestimo = none :=
          findById_eq_none Emprestimo.id fun e he => by have := hbe e he; omega
        have hcount : ∀ bid, activeCount
            (insertRep Emprestimo.id s.emprestimos
              ((novoEmprestimo idLivro idAluno dataE dataP).withId s.nextEmprestimo)) bid
            = activeCount s.emprestimos bid + (if idLivro = bid then 1 else 0) := by
          intro bid
          rw [activeCount, hnewloan]
          rw [countP_insertRep_absent Emprestimo.id _ (by exact hnotin)]
          rw [activeCount]
          congr 1
          by_cases hb : idLivro = bid <;> simp [hb]
        refine ⟨⟨sortedBy_insertRep Livro.id hsl _, hsa,
          sortedBy_insertRep Emprestimo.id hse _, ?_, hua, ?_, hba, ?_⟩, ?_, ?_, ?_⟩
        · exact ukNodup_insertRep Livro.id livroUk hsl hul
            (putU_some_no_conflict Livro.id livroUk hput)
        · intro b hb
          rcases mem_insertRep Livro.id hb with rfl | hb
          · exact hbl livro hmem.1
          · exact hbl b hb
        · intro e he
          rcases mem_insertRep Emprestimo.id he with rfl | he
          · show s.nextEmprestimo < s.nextEmprestimo + 1
            omega
          · show e.id < s.nextEmprestimo + 1
            have := hbe e he
            omega
        · intro b hb
          rw [mem_insertRep_iff Livro.id hsl] at hb
          rcases hb with rfl | ⟨hb, hbne⟩
          · constructor
            · show 0 ≤ livro.quantidadeDisponivel - 1
              omega
            · have hb0 := hstock livro hmem.1
              rw [hcount]
              show livro.quantidadeDisponivel - 1
                  + ((activeCount s.emprestimos livro.id + if idLivro = livro.id then 1 else 0 : Nat) : Int)
                = livro.quantidadeTotal
              rw [if_pos hmem.2.symm]
              push_cast
              omega
          · have hb0 := hstock b hb
            refine ⟨hb0.1, ?_⟩
            rw [hcount]
            have : idLivro ≠ b.id := by
              have := hmem.2
              intro hcontra
              apply hbne
              show b.id = Livro.id { livro with
                quantidadeDisponivel := livro.quantidadeDisponivel - 1 }
              show b.id = livro.id
              omega
            rw [if_neg this, Nat.add_zero]
            exact hb0.2
        · intro e he
          rcases mem_insertRep Emprestimo.id he with rfl | he
          · exact .inl rfl
          · exact hstatus e he
        · intro e he
          rcases mem_insertRep Emprestimo.id he with rfl | he
          · intro _
            show idLivro < s.nextLivro
            have := hbl livro hmem.1
            have := hmem.2
            omega
          · exact hrefs e he

/-- `registrarDevolucao` preserves the stock invariant. -/
theorem inv_registrarDevolucao (s : DBState) (idEmp : Nat) (dataDev : String)
    (h : Inv s) : Inv (registrarDevolucao s idEmp dataDev).2 := by
  obtain ⟨⟨hsl, hsa, hse, hul, hua, hbl, hba, hbe⟩, hstock, hstatus, hrefs⟩ := h
  cases hfind : findById Emprestimo.id s.emprestimos idEmp with
  | none =>
    rw [registrarDevolucao, hfind]
    exact ⟨⟨hsl, hsa, hse, hul, hua, hbl, hba, hbe⟩, hstock, hstatus, hrefs⟩
  | some emp =>
    by_cases hstat : emp.status = "devolvido"
    · rw [registrarDevolucao, hfind]
      dsimp only
      rw [if_pos hstat]
      exact ⟨⟨hsl, hsa, hse, hul, hua, hbl, hba, hbe⟩, hstock, hstatus, hrefs⟩
    · have hmem := findById_mem Emprestimo.id hfind
      have hativo : emp.status = "ativo" := by
        rcases hstatus emp hmem.1 with h' | h'
        · exact h'
        · exact absurd h' hstat
      have hputEmp : putU Emprestimo.id empUk s.emprestimos
          { emp with status := "devolvido", dataDevolucaoReal := some dataDev }
          = some (insertRep Emprestimo.id s.emprestimos
              { emp with status := "devolvido", dataDevolucaoReal := some dataDev }) :=
        putU_of_uk_none Emprestimo.id empUk rfl
      have hfindE : findById Emprestimo.id s.emprestimos
          (Emprestimo.id
            { emp with status := "devolvido", dataDevolucaoReal := some dataDev })
          = some emp := by
        show findById Emprestimo.id s.emprestimos emp.id = some emp
        rw [hmem.2]
        exact hfind
      have hcount : ∀ bid, activeCount
          (insertRep Emprestimo.id s.emprestimos
            { emp with status := "devolvido", dataDevolucaoReal := some dataDev }) bid
            + (if emp.idLivro = bid then 1 else 0)
          = activeCount s.emprestimos bid := by
        intro bid
        have hthis := countP_insertRep_present Emprestimo.id
          (fun e => decide (e.idLivro = bid) && decide (e.status = "ativo"))
          hse hfindE
        rw [activeCount, activeCount]
        simpa +decide [hativo] using hthis
      have hsorted' := sortedBy_insertRep Emprestimo.id hse
        { emp with status := "devolvido", dataDevolucaoReal := some dataDev }
      have hbound' : ∀ e ∈ insertRep Emprestimo.id s.emprestimos
          { emp with status := "devolvido", dataDevolucaoReal := some dataDev },
          e.id < s.nextEmprestimo := by
        intro e he
        rcases mem_insertRep Emprestimo.id he with rfl | he
        · exact hbe emp hmem.1
        · exact hbe e he
      have hstatus' : ∀ e ∈ insertRep Emprestimo.id s.emprestimos
          { emp with status := "devolvido", dataDevolucaoReal := some dataDev },
          e.status = "ativo" ∨ e.status = "devolvido" := by
        intro e he
        rcases mem_insertRep Emprestimo.id he with rfl | he
        · exact .inr rfl
        · exact hstatus e he
      have hrefs' : ∀ e ∈ insertRep Emprestimo.id s.emprestimos
          { emp with status := "devolvido", dataDevolucaoReal := some dataDev },
          e.status = "ativo" → e.idLivro < s.nextLivro := by
        intro e he
        rcases mem_insertRep Emprestimo.id he with rfl | he
        · intro h'
          have h'' : ("devolvido" : String) = "ativo" := h'
          exact absurd h'' (by decide)
        · exact hrefs e he
      cases hbook : findById Livro.id s.livros emp.idLivro with
      | none =>
        have hr : registrarDevolucao s idEmp dataDev
            = (none,
              { s with
                emprestimos := insertRep Emprestimo.id s.emprestimos
                  { emp with status := "devolvido", dataDevolucaoReal := some dataDev } }) := by
          rw [registrarDevolucao, hfind]
          dsimp only
          rw [if_neg hstat, hputEmp]
          dsimp only
          rw [hbook]
        rw [hr]
        dsimp only
        refine ⟨⟨hsl, hsa, hsorted', hul, hua, hbl, hba, hbound'⟩, ?_, hstatus', hrefs'⟩
        intro b hb
        have hb0 := hstock b hb
        have hbne : emp.idLivro ≠ b.id := by
          have hb2 := hbook
          rw [findById] at hb2
          have := List.find?_eq_none.mp hb2 b hb
          simp only [decide_eq_true_eq] at this
          omega
        refine ⟨hb0.1, ?_⟩
        have hc := hcount b.id
        rw [if_neg hbne] at hc
        rw [Nat.add_zero] at hc
        rw [hc]
        exact hb0.2
      | some livro =>
        have hlmem := findById_mem Livro.id hbook
        have hputLiv : putU Livro.id livroUk s.livros
            { livro with quantidadeDisponivel := livro.quantidadeDisponivel + 1 }
            = some (insertRep Livro.id s.livros
                { livro with quantidadeDisponivel := livro.quantidadeDisponivel + 1 }) :=
          putU_replace_self Livro.id livroUk hul hlmem.1 rfl rfl
        have hr : registrarDevolucao s idEmp dataDev
            = (none,
              { s with
                emprestimos := insertRep Emprestimo.id s.emprestimos
                  { emp with status := "devolvido", dataDevolucaoReal := some dataDev }
                livros := insertRep Livro.id s.livros
                  { livro with quantidadeDisponivel := livro.quantidadeDisponivel + 1 } }) := by
          rw [registrarDevolucao, hfind]
          dsimp only
          rw [if_neg hstat, hputEmp]
          dsimp only
          rw [hbook]
          dsimp only
          rw [hputLiv]
        rw [hr]
        dsimp only
        refine ⟨⟨sortedBy_insertRep Livro.id hsl _, hsa, hsorted', ?_, hua, ?_, hba,
          hbound'⟩, ?_, hstatus', hrefs'⟩
        · exact ukNodup_insertRep Livro.id livroUk hsl hul
            (putU_some_no_conflict Livro.id livroUk hputLiv)
        · intro b hb
          rcases mem_insertRep Livro.id hb with rfl | hb
          · exact hbl livro hlmem.1
          · exact hbl b hb
        · intro b hb
          rw [mem_insertRep_iff Livro.id hsl] at hb
          rcases hb with rfl | ⟨hb, hbne⟩
          · have hb0 := hstock livro hlmem.1
            constructor
            · show 0 ≤ livro.quantidadeDisponivel + 1
              omega
            · have hc := hcount livro.id
              rw [if_pos hlmem.2.symm] at hc
              show livro.quantidadeDisponivel + 1 +
                  (activeCount (insertRep Emprestimo.id s.emprestimos
                    { emp with status := "devolvido", dataDevolucaoReal := some dataDev })
                    livro.id : Int)
                = livro.quantidadeTotal
              have hcackle : (activeCount (insertRep Emprestimo.id s.emprestimos
                  { emp with status := "devolvido", dataDevolucaoReal := some dataDev })
                    livro.id : Int) + 1
                  = activeCount s.emprestimos livro.id := by
                exact_mod_cast congrArg (fun n : Nat => (n : Int)) hc
              omega
          · have hb0 := hstock b hb
            refine ⟨hb0.1, ?_⟩
            have hbne' : emp.idLivro ≠ b.id := by
              intro hcontra
              apply hbne
              show b.id = livro.id
              omega
            have hc := hcount b.id
            rw [if_neg hbne', Nat.add_zero] at hc
            rw [hc]
            exact hb0.2

/-- Cataloging a new book (non-negative total, as the form enforces)
preserves the stock invariant: the fresh record starts with
`disponivel = total` and no active loan can reference the fresh key. -/
theorem inv_salvarLivro_novo (s : DBState) (titulo autor isbn : String) (qtd : Int)
    (hq : 0 ≤ qtd) (h : Inv s) : Inv (salvarLivro s none titulo autor isbn qtd).2 := by
  obtain ⟨⟨hsl, hsa, hse, hul, hua, hbl, hba, hbe⟩, hstock, hstatus, hrefs⟩ := h
  cases hput : putU Livro.id livroUk s.livros
      ⟨s.nextLivro, titulo, autor, isbn, qtd, qtd⟩ with
  | none =>
    rw [salvarLivro]
    dsimp only
    rw [show putU Livro.id livroUk s.livros
        { id := s.nextLivro, titulo := titulo, autor := autor, isbn := isbn,
          quantidadeTotal := qtd, quantidadeDisponivel := qtd } = none from hput]
    exact ⟨⟨hsl, hsa, hse, hul, hua, hbl, hba, hbe⟩, hstock, hstatus, hrefs⟩
  | some livros' =>
    rw [salvarLivro]
    dsimp only
    rw [show putU Livro.id livroUk s.livros
        { id := s.nextLivro, titulo := titulo, autor := autor, isbn := isbn,
          quantidadeTotal := qtd, quantidadeDisponivel := qtd } = some livros' from hput]
    dsimp only
    have hlivros' := putU_some_eq Livro.id livroUk hput
    subst hlivros'
    have hczero : activeCount s.emprestimos s.nextLivro = 0 := by
      rw [activeCount, List.countP_eq_zero]
      intro e he
      simp only [Bool.and_eq_true, decide_eq_true_eq, not_and]
      intro hid hst
      have := hrefs e he hst
      omega
    refine ⟨⟨sortedBy_insertRep Livro.id hsl _, hsa, hse, ?_, hua, ?_, hba, hbe⟩,
      ?_, hstatus, ?_⟩
    · exact ukNodup_insertRep Livro.id livroUk hsl hul
        (putU_some_no_conflict Livro.id livroUk hput)
    · intro b hb
      rcases mem_insertRep Livro.id hb with rfl | hb
      · show s.nextLivro < s.nextLivro + 1
        omega
      · show b.id < s.nextLivro + 1
        have := hbl b hb
        omega
    · intro b hb
      rw [mem_insertRep_iff Livro.id hsl] at hb
      rcases hb with rfl | ⟨hb, hbne⟩
      · refine ⟨hq, ?_⟩
        show qtd + (activeCount s.emprestimos s.nextLivro : Int) = qtd
        rw [hczero]
        omega
      · exact hstock b hb
    · intro e he hst
      show e.idLivro < s.nextLivro + 1
      have := hrefs e he hst
      omega

/-- Editing a book whose id is still present preserves the stock
invariant: the recomputation `disponivel += totalNovo − totalVelho`
keeps `total − disponivel` equal to the number of active loans. -/
theorem inv_salvarLivro_editar (s : DBState) (i : Nat)
    (titulo autor isbn : String) (qtd : Int)
    (hfound : (findById Livro.id s.livros i).isSome) (h : Inv s) :
    Inv (salvarLivro s (some i) titulo autor isbn qtd).2 := by
  obtain ⟨⟨hsl, hsa, hse, hul, hua, hbl, hba, hbe⟩, hstock, hstatus, hrefs⟩ := h
  obtain ⟨antigo, hfind⟩ := Option.isSome_iff_exists.mp hfound
  have hmem := findById_mem Livro.id hfind
  by_cases hneg : antigo.quantidadeDisponivel + (qtd - antigo.quantidadeTotal) < 0
  · rw [salvarLivro]
    dsimp only
    rw [hfind]
    dsimp only
    rw [if_pos hneg]
    exact ⟨⟨hsl, hsa, hse, hul, hua, hbl, hba, hbe⟩, hstock, hstatus, hrefs⟩
  · cases hput : putU Livro.id livroUk s.livros
        ⟨i, titulo, autor, isbn, qtd,
          antigo.quantidadeDisponivel + (qtd - antigo.quantidadeTotal)⟩ with
    | none =>
      rw [salvarLivro]
      dsimp only
      rw [hfind]
      dsimp only
      rw [if_neg hneg,
        show putU Livro.id livroUk s.livros
          { id := i, titulo := titulo, autor := autor, isbn := isbn,
            quantidadeTotal := qtd,
            quantidadeDisponivel :=
              antigo.quantidadeDisponivel + (qtd - antigo.quantidadeTotal) }
          = none from hput]
      exact ⟨⟨hsl, hsa, hse, hul, hua, hbl, hba, hbe⟩, hstock, hstatus, hrefs⟩
    | some livros' =>
      rw [salvarLivro]
      dsimp only
      rw [hfind]
      dsimp only
      rw [if_neg hneg,
        show putU Livro.id livroUk s.livros
          { id := i, titulo := titulo, autor := autor, isbn := isbn,
            quantidadeTotal := qtd,
            quantidadeDisponivel :=
              antigo.quantidadeDisponivel + (qtd - antigo.quantidadeTotal) }
          = some livros' from hput]
      dsimp only
      have hlivros' := putU_some_eq Livro.id livroUk hput
      subst hlivros'
      refine ⟨⟨sortedBy_insertRep Livro.id hsl _, hsa, hse, ?_, hua, ?_, hba, hbe⟩,
        ?_, hstatus, ?_⟩
      · exact ukNodup_insertRep Livro.id livroUk hsl hul
          (putU_some_no_conflict Livro.id livroUk hput)
      · intro b hb
        rcases mem_insertRep Livro.id hb with rfl | hb
        · show i < max s.nextLivro (i + 1)
          omega
        · show b.id < max s.nextLivro (i + 1)
          have := hbl b hb
          omega
      · intro b hb
        rw [mem_insertRep_iff Livro.id hsl] at hb
        rcases hb with rfl | ⟨hb, hbne⟩
        · have hb0 := hstock antigo hmem.1
          have hid : antigo.id = i := hmem.2
          constructor
          · show 0 ≤ antigo.quantidadeDisponivel + (qtd - antigo.quantidadeTotal)
            omega
          · show antigo.quantidadeDisponivel + (qtd - antigo.quantidadeTotal)
                + (activeCount s.emprestimos i : Int) = qtd
            rw [← hid]
            omega
        · exact hstock b hb
      · intro e he hst
        show e.idLivro < max s.nextLivro (i + 1)
        have := hrefs e he hst
        omega

/-- C1 (amended): on every state satisfying the strengthened stock
invariant `Inv` — non-negative available copies with
`disponivel + #(active loans of the book) = total`, legal loan
statuses, and active references within the key range — every book
satisfies `0 ≤ quantidadeDisponivel ≤ quantidadeTotal`, and the
invariant is preserved by checkout, return, cataloging a new book with
non-negative total, and editing a book whose id is present in the
store; hence the bounds hold before and after each of these
operations.  (Backup import and the stale-id edit path are excluded:
`validarBackup` checks no quantity ranges, so importing can create
states violating the bounds — see the counterexample.) -/
theorem invariante_estoque (s : DBState) (h : Inv s) :
    (∀ b ∈ s.livros, 0 ≤ b.quantidadeDisponivel ∧
      b.quantidadeDisponivel ≤ b.quantidadeTotal) ∧
    (∀ idLivro idAluno dataE dataP,
      Inv (registrarEmprestimo s (novoEmprestimo idLivro idAluno dataE dataP)).2) ∧
    (∀ idEmp dataDev, Inv (registrarDevolucao s idEmp dataDev).2) ∧
    (∀ titulo autor isbn qtd, 0 ≤ qtd →
      Inv (salvarLivro s none titulo autor isbn qtd).2) ∧
    (∀ i titulo autor isbn qtd, (findById Livro.id s.livros i).isSome →
      Inv (salvarLivro s (some i) titulo autor isbn qtd).2) := by
  refine ⟨fun b hb => ?_,
    fun il ia d1 d2 => inv_registrarEmprestimo s il ia d1 d2 h,
    fun i d => inv_registrarDevolucao s i d h,
    fun t a i q hq => inv_salvarLivro_novo s t a i q hq h,
    fun i t a isbn q hf => inv_salvarLivro_editar s i t a isbn q hf h⟩
  have hb0 := h.2.1 b hb
  have hc : (0 : Int) ≤ (activeCount s.emprestimos b.id : Int) := Int.natCast_nonneg _
  exact ⟨hb0.1, by omega⟩

/-- Witness for the amended C1: a store with one book (2 total, 1
available) and one active loan satisfies the invariant, and the bounds
and preservation statements hold there. -/
theorem invariante_estoque_witness :
    (∀ b ∈ (⟨[⟨1, "T", "A", "I", 2, 1⟩], [],
        [⟨1, 1, 1, "2024-01-01", "2024-01-08", none, "ativo"⟩], 2, 1, 2⟩ : DBState).livros,
      0 ≤ b.quantidadeDisponivel ∧ b.quantidadeDisponivel ≤ b.quantidadeTotal) ∧
    (∀ idLivro idAluno dataE dataP,
      Inv (registrarEmprestimo
        ⟨[⟨1, "T", "A", "I", 2, 1⟩], [],
          [⟨1, 1, 1, "2024-01-01", "2024-01-08", none, "ativo"⟩], 2, 1, 2⟩
        (novoEmprestimo idLivro idAluno dataE dataP)).2) ∧
    (∀ idEmp dataDev, Inv (registrarDevolucao
      ⟨[⟨1, "T", "A", "I", 2, 1⟩], [],
        [⟨1, 1, 1, "2024-01-01", "2024-01-08", none, "ativo"⟩], 2, 1, 2⟩ idEmp dataDev).2) ∧
    (∀ titulo autor isbn qtd, 0 ≤ qtd →
      Inv (salvarLivro
        ⟨[⟨1, "T", "A", "I", 2, 1⟩], [],
          [⟨1, 1, 1, "2024-01-01", "2024-01-08", none, "ativo"⟩], 2, 1, 2⟩
        none titulo autor isbn qtd).2) ∧
    (∀ i titulo autor isbn qtd,
      (findById Livro.id (⟨[⟨1, "T", "A", "I", 2, 1⟩], [],
        [⟨1, 1, 1, "2024-01-01", "2024-01-08", none, "ativo"⟩], 2, 1, 2⟩ : DBState).livros
          i).isSome →
      Inv (salvarLivro
        ⟨[⟨1, "T", "A", "I", 2, 1⟩], [],
          [⟨1, 1, 1, "2024-01-01", "2024-01-08", none, "ativo"⟩], 2, 1, 2⟩
        (some i) titulo autor isbn qtd).2) :=
  invariante_estoque
    ⟨[⟨1, "T", "A", "I", 2, 1⟩], [],
      [⟨1, 1, 1, "2024-01-01", "2024-01-08", none, "ativo"⟩], 2, 1, 2⟩
    ⟨(by refine ⟨?w1, ?w2, ?w3, ?w4, ?w5, ?w6, ?w7, ?w8⟩ <;>
        simp [SortedBy, UkNodup, livroUk, alunoUk]),
      by decide, by decide, by decide⟩

set_option maxRecDepth 200000 in
/-- Counterexample to C1 as stated: backup validation checks no
quantity ranges, so a checksummed payload carrying a book with
`disponivel = total = 1` together with an active loan on that same
book passes `validarBackup` and imports cleanly; the subsequent return
of that loan increments the book to `disponivel = 2 > total = 1`, so
the invariant `disponivel ≤ total` fails after a return on a state
reachable through the public operations including backup import. -/
theorem invariante_estoque_counterexample :
    validarBackup (.obj ((payloadSemChecksum "1.0" "2024-01-02T00:00:00.000Z"
        ⟨[⟨1, "T", "A", "I", 1, 1⟩], [],
          [⟨1, 1, 1, "2024-01-01", "2024-01-08", none, "ativo"⟩]⟩).append
      (.cons "checksum"
        (.str (gerarChecksumSimples (.obj (payloadSemChecksum "1.0" "2024-01-02T00:00:00.000Z"
          ⟨[⟨1, "T", "A", "I", 1, 1⟩], [],
            [⟨1, 1, 1, "2024-01-01", "2024-01-08", none, "ativo"⟩]⟩))))
        .nil)))
      = none ∧
    decodeBackup (.obj ((payloadSemChecksum "1.0" "2024-01-02T00:00:00.000Z"
        ⟨[⟨1, "T", "A", "I", 1, 1⟩], [],
          [⟨1, 1, 1, "2024-01-01", "2024-01-08", none, "ativo"⟩]⟩).append
      (.cons "checksum"
        (.str (gerarChecksumSimples (.obj (payloadSemChecksum "1.0" "2024-01-02T00:00:00.000Z"
          ⟨[⟨1, "T", "A", "I", 1, 1⟩], [],
            [⟨1, 1, 1, "2024-01-01", "2024-01-08", none, "ativo"⟩]⟩))))
        .nil)))
      = some ⟨[⟨1, "T", "A", "I", 1, 1⟩], [],
          [⟨1, 1, 1, "2024-01-01", "2024-01-08", none, "ativo"⟩]⟩ ∧
    (importAllData DBState.empty
      ⟨[⟨1, "T", "A", "I", 1, 1⟩], [],
        [⟨1, 1, 1, "2024-01-01", "2024-01-08", none, "ativo"⟩]⟩).1 = none ∧
    (registrarDevolucao (importAllData DBState.empty
      ⟨[⟨1, "T", "A", "I", 1, 1⟩], [],
        [⟨1, 1, 1, "2024-01-01", "2024-01-08", none, "ativo"⟩]⟩).2 1 "2024-01-03").1
      = none ∧
    ¬(∀ b ∈ (registrarDevolucao (importAllData DBState.empty
        ⟨[⟨1, "T", "A", "I", 1, 1⟩], [],
          [⟨1, 1, 1, "2024-01-01", "2024-01-08", none, "ativo"⟩]⟩).2 1 "2024-01-03").2.livros,
      0 ≤ b.quantidadeDisponivel ∧ b.quantidadeDisponivel ≤ b.quantidadeTotal) := by
  decide

end Biblioteca
